import Mathlib

/-!
Verification of the character/spine data-extraction engine of
BA-characters-internal-id (`main.py`).

Strings are modelled as `List Char`.  Python's `str.lower`/`str.upper` are
modelled by `Char.toLower`/`Char.toUpper` (ASCII case mapping; the strings this
program case-maps are ASCII asset tokens, and CJK text is case-invariant in
both models).  Python regular expressions are modelled by explicit scanners
with the exact leftmost / greedy-with-backtracking semantics of `re.sub` and
`re.search` for the concrete patterns appearing in the source.
-/

/-- Strings as lists of characters. -/
abbrev Str := List Char

/-- Whitespace as stripped by Python's `str.strip()` (the whitespace
characters that can occur in this data, including the ideographic space). -/
def isSpaceCh (c : Char) : Bool :=
  c = ' ' || c = '\t' || c = '\n' || c = '\r' || c = '\x0b' || c = '\x0c' || c = '　'

/-- Remove leading characters satisfying `p` and trailing ones too
(Python `str.strip(chars)`). -/
def stripEnd (p : Char → Bool) (s : Str) : Str :=
  (s.reverse.dropWhile p).reverse

/-- Strip characters satisfying `p` from both ends. -/
def stripBoth (p : Char → Bool) (s : Str) : Str :=
  stripEnd p (s.dropWhile p)

/-- One character of the pattern `(CH|NP)` (case-insensitive): the pair check. -/
def isCHNPPair (c1 c2 : Char) : Bool :=
  (c1.toLower = 'c' && c2.toLower = 'h') || (c1.toLower = 'n' && c2.toLower = 'p')

/-- Attempt of the regex `(CH|NP)\d{4}` (case-insensitive) anchored at the
head of the list; returns the matched six characters. -/
def chnpAt : Str → Option Str
  | c1 :: c2 :: d1 :: d2 :: d3 :: d4 :: _ =>
      if isCHNPPair c1 c2 && d1.isDigit && d2.isDigit && d3.isDigit && d4.isDigit then
        some [c1, c2, d1, d2, d3, d4]
      else
        none
  | _ => none

/-- `re.search(r"(CH|NP)\d{4}", s, re.IGNORECASE)`: leftmost match. -/
def findCHNP : Str → Option Str
  | [] => none
  | c :: rest =>
      match chnpAt (c :: rest) with
      | some m => some m
      | none => findCHNP rest

/-- The noise-prefix loop of `_normalize_file_id`: for each of `J_`, `new_`,
`old_` in turn, drop it when the current value starts with it case-insensitively. -/
def stripNoisePrefixes (s : Str) : Str :=
  List.foldl
    (fun acc p =>
      if (p.map Char.toLower).isPrefixOf (acc.map Char.toLower) then acc.drop p.length else acc)
    s
    [("J_").data, ("new_").data, ("old_").data]

/-- The noise-suffix loop of `_normalize_file_id`: for `_spr` then
`_spr_update`, remove it when the current value ends with it (case-sensitive). -/
def stripNoiseSuffixes (s : Str) : Str :=
  List.foldl
    (fun acc sf => if sf.isSuffixOf acc then acc.take (acc.length - sf.length) else acc)
    s
    [("_spr").data, ("_spr_update").data]

/-- `DataParser._normalize_file_id`. -/
def normalizeFileId (s : Str) : Str :=
  match findCHNP s with
  | some m => m.map Char.toUpper
  | none =>
      let c := stripBoth isSpaceCh s
      let c := stripNoisePrefixes c
      let c := stripNoiseSuffixes c
      c.map Char.toLower

/-! ## Remark cleaner (`DataParser._process_spine_remark`) -/

/-- Worker for `re.sub(pat, rep, s)` for patterns that cannot match the empty
string: scan left to right; with `skip = 0`, try the matcher at the current
position; a match of length `n+1` emits the replacement, consumes the current
character and skips the remaining `n` characters of the matched span. -/
def subAllGo (m : Str → Option (Nat × Str)) : Nat → Str → Str
  | _ + 1, [] => []
  | skip + 1, _ :: rest => subAllGo m skip rest
  | 0, [] => []
  | 0, c :: rest =>
    match m (c :: rest) with
    | some (n + 1, rep) => rep ++ subAllGo m n rest
    | _ => c :: subAllGo m 0 rest

/-- `re.sub` driver (see `subAllGo`). -/
def subAll (m : Str → Option (Nat × Str)) (s : Str) : Str :=
  subAllGo m 0 s

/-- Worker like `subAllGo` but the matcher also sees the character immediately
before the current position (needed for word-boundary patterns). -/
def subAllPosGo (m : Option Char → Str → Option (Nat × Str)) :
    Nat → Option Char → Str → Str
  | _ + 1, _, [] => []
  | skip + 1, _, c :: rest => subAllPosGo m skip (some c) rest
  | 0, _, [] => []
  | 0, prev, c :: rest =>
    match m prev (c :: rest) with
    | some (n + 1, rep) => rep ++ subAllPosGo m n (some c) rest
    | _ => c :: subAllPosGo m 0 (some c) rest

/-- Position-aware `re.sub` driver (see `subAllPosGo`). -/
def subAllPos (m : Option Char → Str → Option (Nat × Str)) (prev : Option Char) (s : Str) :
    Str :=
  subAllPosGo m 0 prev s

/-- Matcher for a literal pattern replaced by `rep`. -/
def litRepM (lit rep : Str) (s : Str) : Option (Nat × Str) :=
  if lit.isPrefixOf s then some (lit.length, rep) else none

/-- Matcher for a literal pattern that is deleted. -/
def litM (lit : Str) (s : Str) : Option (Nat × Str) :=
  litRepM lit [] s

def isOpenParen (c : Char) : Bool := c = '(' || c = '（'

def isCloseParen (c : Char) : Bool := c = ')' || c = '）'

/-- Length of the leading run of ASCII digits. -/
def digitRun : Str → Nat
  | [] => 0
  | c :: r => if c.isDigit then digitRun r + 1 else 0

/-- Index of the first closing parenthesis. -/
def findCloseIdx : Str → Option Nat
  | [] => none
  | c :: r => if isCloseParen c then some 0 else (findCloseIdx r).map (· + 1)

/-- Inside `[\(（][^\)）]*?\d{2,4}[年\.][^\)）]*?[\)）]`, the part after the
lazy prefix: a 2-4 digit run followed by a year marker or dot, then the first
closing parenthesis.  Returns the consumed length. -/
def parenDateHead (s : Str) : Option Nat :=
  let k := digitRun s
  if 2 ≤ k ∧ k ≤ 4 then
    match s.drop k with
    | m :: r2 =>
        if m = '年' ∨ m = '.' then (findCloseIdx r2).map (fun j => k + 1 + j + 1) else none
    | [] => none
  else none

/-- The lazy scan of `[^\)）]*?` before the digit group: grow the prefix one
non-closing character at a time. -/
def parenDateInner : Str → Option Nat
  | [] => none
  | c :: rest =>
      if isCloseParen c then none
      else
        match parenDateHead (c :: rest) with
        | some n => some n
        | none => (parenDateInner rest).map (· + 1)

/-- Matcher for `[\(（][^\)）]*?\d{2,4}[年\.][^\)）]*?[\)）]` (parenthesised
date qualifiers). -/
def parenDateM : Str → Option (Nat × Str)
  | c :: rest =>
      if isOpenParen c then (parenDateInner rest).map (fun L => (1 + L, [])) else none
  | [] => none

/-- The optional trailing qualifier `(?:之?[前后]|更新|版本修改)?` of the bare
date pattern: matched length (0 when absent). -/
def qualifierLen (s : Str) : Nat :=
  if (("之前").data).isPrefixOf s ∨ (("之后").data).isPrefixOf s then 2
  else if (("前").data).isPrefixOf s ∨ (("后").data).isPrefixOf s then 1
  else if (("更新").data).isPrefixOf s then 2
  else if (("版本修改").data).isPrefixOf s then 4
  else 0

/-- Matcher for `\d{2,4}[年\.-]\d{1,2}[月\.-]\d{0,2}日?\s*(?:之?[前后]|更新|版本修改)?`
(bare date strings). -/
def bareDateM (s : Str) : Option (Nat × Str) :=
  let k1 := digitRun s
  if 2 ≤ k1 ∧ k1 ≤ 4 then
    match s.drop k1 with
    | m1 :: r1 =>
        if m1 = '年' ∨ m1 = '.' ∨ m1 = '-' then
          let k2 := digitRun r1
          if 1 ≤ k2 ∧ k2 ≤ 2 then
            match r1.drop k2 with
            | m2 :: r2 =>
                if m2 = '月' ∨ m2 = '.' ∨ m2 = '-' then
                  let k3 := min (digitRun r2) 2
                  let r3 := r2.drop k3
                  let dl := if r3.head? = some '日' then 1 else 0
                  let r4 := r3.drop dl
                  let ws := (r4.takeWhile isSpaceCh).length
                  let q := qualifierLen (r4.drop ws)
                  some (k1 + 1 + k2 + 1 + k3 + dl + ws + q, [])
                else none
            | [] => none
          else none
        else none
    | [] => none
  else none

/-- Matcher for `[\(（](?:已)?更新至实装[\)）]` (the two branches of the
optional `已` spelled out). -/
def updatedToLiveM : Str → Option (Nat × Str)
  | c :: rest =>
      if isOpenParen c then
        if rest.head? = some '已' then
          if (("更新至实装").data).isPrefixOf (rest.drop 1) then
            match ((rest.drop 1).drop 5).head? with
            | some d => if isCloseParen d then some (8, []) else none
            | none => none
          else none
        else
          if (("更新至实装").data).isPrefixOf rest then
            match (rest.drop 5).head? with
            | some d => if isCloseParen d then some (7, []) else none
            | none => none
          else none
      else none
  | [] => none

/-- Matcher for `修正版?`. -/
def revisedM (s : Str) : Option (Nat × Str) :=
  if (("修正版").data).isPrefixOf s then some (3, [])
  else if (("修正").data).isPrefixOf s then some (2, [])
  else none

/-- Python `\w` restricted to the character ranges occurring in this data:
ASCII alphanumerics, underscore, CJK unified ideographs. -/
def isWordCh (c : Char) : Bool :=
  c.isAlphanum || c = '_' || (0x4E00 ≤ c.toNat && c.toNat ≤ 0x9FFF)

def isWordOpt : Option Char → Bool
  | some c => isWordCh c
  | none => false

/-- One alternative of `(?i)\b(old|new|fixed)\b`: case-insensitive literal with
a trailing word boundary. -/
def wordHit (lit : Str) (s : Str) : Option Nat :=
  if lit.isPrefixOf ((s.take lit.length).map Char.toLower) ∧ lit.length ≤ s.length then
    if isWordOpt ((s.drop lit.length).head?) then none else some lit.length
  else none

/-- The `ver\.?\d*\b` alternative with its backtracking behaviour. -/
def verHit (s : Str) : Option Nat :=
  if ("ver").data.isPrefixOf ((s.take 3).map Char.toLower) ∧ 3 ≤ s.length then
    let r := s.drop 3
    if r.head? = some '.' then
      let r2 := r.drop 1
      let ds := (r2.takeWhile Char.isDigit).length
      if ¬ isWordOpt ((r2.drop ds).head?) then
        if ds = 0 ∧ isWordOpt r2.head? = false then some 3 else some (4 + ds)
      else some 4
    else
      let ds := (r.takeWhile Char.isDigit).length
      if isWordOpt ((r.drop ds).head?) then none else some (3 + ds)
  else none

/-- Matcher for `(?i)\b(old|new|fixed|ver\.?\d*)\b`. -/
def wordTokenM (prev : Option Char) (s : Str) : Option (Nat × Str) :=
  if isWordOpt prev then none
  else
    match wordHit ("old").data s with
    | some n => some (n, [])
    | none =>
      match wordHit ("new").data s with
      | some n => some (n, [])
      | none =>
        match wordHit ("fixed").data s with
        | some n => some (n, [])
        | none =>
          match verHit s with
          | some n => some (n, [])
          | none => none

/-- Matcher for `[旧新]`. -/
def oldNewCharM (s : Str) : Option (Nat × Str) :=
  if s.head? = some '旧' ∨ s.head? = some '新' then some (1, []) else none

/-- Matcher for `[\(（][\)）]` (empty parenthesis pairs, full- or half-width). -/
def emptyParenM : Str → Option (Nat × Str)
  | a :: b :: _ => if isOpenParen a && isCloseParen b then some (2, []) else none
  | _ => none

/-- Matcher for `[,，]\s*[,，]` replaced by `,`. -/
def doubleCommaM : Str → Option (Nat × Str)
  | c :: rest =>
      if c = ',' ∨ c = '，' then
        let ws := (rest.takeWhile isSpaceCh).length
        match (rest.drop ws).head? with
        | some d => if d = ',' ∨ d = '，' then some (1 + ws + 1, [',']) else none
        | none => none
      else none
  | [] => none

/-- Matcher for `[\(（]\s*([^)）]+?)\s*[\)）]` replaced by `,\1`: the capture is
the content between the parentheses with surrounding whitespace trimmed (one
whitespace character when the content is all whitespace). -/
def parenToCommaM : Str → Option (Nat × Str)
  | c :: rest =>
      if isOpenParen c then
        match findCloseIdx rest with
        | some j =>
            let inner := rest.take j
            if inner = [] then none
            else if (inner.takeWhile isSpaceCh).length = inner.length then
              some (j + 2, [','] ++ inner.drop (inner.length - 1))
            else
              some (j + 2, [','] ++ stripBoth isSpaceCh inner)
        | none => none
      else none
  | [] => none

/-- Matcher for the lexical substitution `礼服(?:日奈|亚子)` to `礼服`. -/
def dressM (s : Str) : Option (Nat × Str) :=
  if (("礼服日奈").data).isPrefixOf s ∨ (("礼服亚子").data).isPrefixOf s then
    some (4, ("礼服").data)
  else none

/-- `DataParser._process_spine_remark`: the ordered rewrite pipeline cleaning a
spine remark, with the final suppression against the base skin label and the
display name. -/
def processSpineRemark (remark base_skin nm : Str) : Str :=
  if remark = [] then []
  else
    let p := subAll (litM ("初始立绘").data) remark
    let p := subAll (litM ("立绘").data) p
    let p := subAll (litM ("差分").data) p
    let p := subAll parenDateM p
    let p := subAll bareDateM p
    let p := subAll updatedToLiveM p
    let p := subAll revisedM p
    let p := subAll (litM ("更新").data) p
    let p := subAllPos wordTokenM none p
    let p := subAll oldNewCharM p
    let p := subAll emptyParenM p
    let p := subAll (litM ("()").data) p
    let p := subAll (litM ("（）").data) p
    let p := stripBoth isSpaceCh p
    let p := stripBoth (fun c => c = ',' || c = '，' || c = ' ') p
    let p := subAll doubleCommaM p
    let p := subAll parenToCommaM p
    let p := stripBoth (fun c => c = ',' || c = '，') p
    let p := subAll dressM p
    let p := subAll (litRepM ("西服").data ("西装").data) p
    if base_skin ≠ [] ∧ p = base_skin then []
    else if nm ≠ [] ∧ p = nm then []
    else p

/-! ## Data model -/

/-- Does `needle` occur as a contiguous substring (Python `in` on strings)? -/
def containsSub (needle : Str) : Str → Bool
  | [] => needle.isPrefixOf []
  | c :: rest => needle.isPrefixOf (c :: rest) || containsSub needle rest

/-- Comma-join of the non-empty parts list (Python `",".join`). -/
def joinComma : List Str → Str
  | [] => []
  | [x] => x
  | x :: xs => x ++ ',' :: joinComma xs

/-- The fields of the inner `data` object of a student response that the
parser reads.  Every field access in the source is optional
(`data.get(...)`), hence every field is an `Option`. -/
structure StudentData where
  family_name : Option Str := none
  given_name : Option Str := none
  skin : Option Str := none
  family_name_cn : Option Str := none
  given_name_cn : Option Str := none
  skin_cn : Option Str := none
  family_name_jp : Option Str := none
  given_name_jp : Option Str := none
  skin_jp : Option Str := none
  family_name_zh_tw : Option Str := none
  given_name_zh_tw : Option Str := none
  skin_zh_tw : Option Str := none
  family_name_en : Option Str := none
  given_name_en : Option Str := none
  family_name_kr : Option Str := none
  given_name_kr : Option Str := none
  school : Option Int := none
  id : Option Int := none
  deriving DecidableEq, Repr

/-- The `data` entry of a student response: the key may be missing, its value
may be an empty (falsy) object, or a usable object. -/
inductive DataField where
  | absent
  | empty
  | present (d : StudentData)
  deriving DecidableEq, Repr

/-- A student API response (`json_data`); `none` at use sites models a missing
or falsy response. -/
structure CharJson where
  data : DataField
  deriving DecidableEq, Repr

/-- One spine asset object, with every field optional. -/
structure SpineItem where
  id : Option Int := none
  name : Option Str := none
  type : Option Str := none
  remark : Option Str := none
  deriving DecidableEq, Repr

/-- Skip reasons produced by the source (each constructor corresponds to one
reason string; parametrised constructors model the f-string payloads). -/
inductive Reason where
  | invalidData
  | emptyData
  | officialAccount
  | easterEgg
  | missingName
  | badType (t : Option Str)
  | hasKeyword (k : Str)
  | badSuffix (sf : Str)
  | noParseableForm
  | fetchFailed (msg : Str)
  deriving DecidableEq, Repr

/-- `StudentForm` dataclass. -/
structure StudentForm where
  file_id : Str
  char_id : Int
  spine_id : Option Int
  full_name : Str
  name : Str
  skin_name : Str
  name_cn : Str
  name_jp : Str
  name_tw : Str
  name_en : Str
  name_kr : Str
  deriving DecidableEq, Repr

/-- `SkippedRecord` dataclass. -/
structure SkippedRecord where
  student_id : Int := 0
  spine_id : Option Int := none
  reason : Reason
  spine_name : Option Str := none
  spine_remark : Option Str := none
  name : Str := []
  name_jp : Str := []
  name_en : Str := []
  school : Option Int := none
  deriving DecidableEq, Repr

/-! ## Parser (`DataParser`) -/

/-- `DataParser._validate_and_get_skip_reason`. -/
def validateAndGetSkipReason (j : Option CharJson) : Option Reason :=
  match j with
  | none => some .invalidData
  | some cj =>
    match cj.data with
    | .absent => some .invalidData
    | .empty => some .emptyData
    | .present d =>
        if d.school = some 30 then some .officialAccount
        else if d.id = some 348 then some .easterEgg
        else none

/-- `DataParser._build_name`. -/
def buildName (family given : Option Str) : Str :=
  let f := family.getD []
  let g := given.getD []
  if f ≠ [] then stripBoth isSpaceCh (f ++ ' ' :: g) else g

/-- `SPINE_KEYWORDS_TO_SKIP`. -/
def keywordsToSkip : List Str := [("toschool").data, ("minori").data, ("ui_raidboss").data]

/-- `SPINE_SUFFIXES_TO_SKIP`. -/
def suffixesToSkip : List Str :=
  [("_cn").data, ("_steam").data, ("_glitch_spr").data, ("_cbt").data,
   ("_halofix").data, ("spr-2").data, ("_old").data]

/-- `DataParser._get_spine_skip_reason`. -/
def getSpineSkipReason (it : SpineItem) : Option Reason :=
  match it.name with
  | none => some .missingName
  | some nm =>
    if nm = [] then some .missingName
    else
      let nl := nm.map Char.toLower
      if it.type ≠ some (("spr").data) then some (.badType it.type)
      else
        match keywordsToSkip.find? (fun k => containsSub k nl) with
        | some k => some (.hasKeyword k)
        | none =>
          match suffixesToSkip.find? (fun sf => sf.isSuffixOf nl) with
          | some sf => some (.badSuffix sf)
          | none => none

/-- The seven keys of `_LANG_CONFIG`. -/
inductive LangKey where
  | full_name
  | name
  | cn
  | jp
  | tw
  | en
  | kr
  deriving DecidableEq, Repr

/-- `DataParser._LANG_CONFIG`: family selector, given selector, skin selector
(the empty-string key reads as `none`), include-skin flag. -/
def langConfig :
    LangKey →
      (StudentData → Option Str) × (StudentData → Option Str) ×
        (StudentData → Option Str) × Bool
  | .full_name => (StudentData.family_name, StudentData.given_name, StudentData.skin, true)
  | .name => (StudentData.family_name, StudentData.given_name, fun _ => none, false)
  | .cn => (StudentData.family_name_cn, StudentData.given_name_cn, StudentData.skin_cn, true)
  | .jp => (StudentData.family_name_jp, StudentData.given_name_jp, StudentData.skin_jp, true)
  | .tw =>
      (StudentData.family_name_zh_tw, StudentData.given_name_zh_tw, StudentData.skin_zh_tw, true)
  | .en => (StudentData.family_name_en, StudentData.given_name_en, fun _ => none, false)
  | .kr => (StudentData.family_name_kr, StudentData.given_name_kr, fun _ => none, false)

/-- `DataParser._build_formatted_name`. -/
def buildFormattedName (d : StudentData) (k : LangKey) (spineRemark : Str) : Str :=
  let cfg := langConfig k
  let base := buildName (cfg.1 d) (cfg.2.1 d)
  if base = [] then []
  else if cfg.2.2.2 = false then base
  else
    let bskin := (cfg.2.2.1 d).getD []
    let pr := processSpineRemark spineRemark bskin base
    let parts := (if bskin ≠ [] then [bskin] else []) ++ (if pr ≠ [] then [pr] else [])
    let finalSkin := joinComma parts
    if finalSkin ≠ [] then base ++ '（' :: (finalSkin ++ ['）']) else base

/-- Construction of the `StudentForm` for one accepted spine item
(`DataParser.parse`, loop body). -/
def buildForm (d : StudentData) (charId : Int) (it : SpineItem) (fileId : Str) : StudentForm :=
  let remark := it.remark.getD []
  let defaultName := buildName d.family_name d.given_name
  let baseSkin := d.skin.getD []
  let pr := processSpineRemark remark baseSkin defaultName
  let skinStr :=
    joinComma ((if baseSkin ≠ [] then [baseSkin] else []) ++ (if pr ≠ [] then [pr] else []))
  { file_id := fileId
    char_id := charId
    spine_id := it.id
    full_name := buildFormattedName d .full_name remark
    name := buildFormattedName d .name remark
    skin_name := skinStr
    name_cn := buildFormattedName d .cn remark
    name_jp := buildFormattedName d .jp remark
    name_tw := buildFormattedName d .tw remark
    name_en := buildFormattedName d .en remark
    name_kr := buildFormattedName d .kr remark }

/-- The `SkippedRecord` for a rejected spine item (`DataParser.parse`). -/
def mkSpineSkip (d : StudentData) (charId : Int) (it : SpineItem) (r : Reason) : SkippedRecord :=
  { student_id := charId
    spine_id := it.id
    reason := r
    spine_name := it.name
    spine_remark := some (it.remark.getD [])
    name := buildName d.family_name d.given_name
    name_jp := buildName d.family_name_jp d.given_name_jp
    name_en := buildName d.family_name_en d.given_name_en
    school := d.school }

/-- The duplicate-identifier merge (`forms_map` update in `DataParser.parse`):
insertion-ordered map, replace in place only when the incoming form's spine id
(missing treated as 0) is strictly greater. -/
def insertForm : List (Str × StudentForm) → Str → StudentForm → List (Str × StudentForm)
  | [], fid, f => [(fid, f)]
  | (k, g) :: rest, fid, f =>
      if k = fid then
        if f.spine_id.getD 0 > g.spine_id.getD 0 then (k, f) :: rest else (k, g) :: rest
      else (k, g) :: insertForm rest fid f

/-- The spine loop of `DataParser.parse`. -/
def parseLoop (d : StudentData) (charId : Int) :
    List SpineItem → List (Str × StudentForm) → List SkippedRecord →
      List (Str × StudentForm) × List SkippedRecord
  | [], m, sk => (m, sk)
  | it :: rest, m, sk =>
    match getSpineSkipReason it with
    | some r => parseLoop d charId rest m (sk ++ [mkSpineSkip d charId it r])
    | none =>
      let fid := normalizeFileId (it.name.getD [])
      if fid = [] then parseLoop d charId rest m sk
      else parseLoop d charId rest (insertForm m fid (buildForm d charId it fid)) sk

/-- The usable inner data of a response, when present. -/
def getData : Option CharJson → Option StudentData
  | some cj =>
    match cj.data with
    | .present d => some d
    | _ => none
  | none => none

/-- `DataParser.parse`: returns (forms, skipped spine records, student-level
skip reason). -/
def parse (j : Option CharJson) (charId : Int) (spines : List SpineItem) :
    List StudentForm × List SkippedRecord × Option Reason :=
  match validateAndGetSkipReason j with
  | some r => ([], [], some r)
  | none =>
    match getData j with
    | some d =>
      let ms := parseLoop d charId spines [] []
      let results := ms.1.map (fun kv => kv.2)
      if results = [] ∧ ms.2 = [] then ([], [], some .noParseableForm)
      else (results, ms.2, none)
    | none => ([], [], some .invalidData)

/-- `process_student_id` (its pure part: the fetch result and the already
fetched spine payloads are parameters). -/
def processStudentId (sid : Int) (fetched : Option CharJson) (fetchMsg : Option Str)
    (spines : List SpineItem) : Int × List StudentForm × List SkippedRecord :=
  match fetched with
  | none =>
      (sid, [],
        [{ student_id := sid
           reason := .fetchFailed (fetchMsg.getD (("未知网络原因").data)) }])
  | some cj =>
    let res := parse (some cj) sid spines
    match res.2.2 with
    | some r =>
      let d := (getData (some cj)).getD {}
      let nm0 := buildName d.family_name d.given_name
      let nm := if nm0 = [] then d.given_name_cn.getD [] else nm0
      (sid, res.1,
        res.2.1 ++
          [{ student_id := sid
             reason := r
             name := nm
             name_jp := buildName d.family_name_jp d.given_name_jp
             name_en := buildName d.family_name_en d.given_name_en
             school := d.school }])
    | none => (sid, res.1, res.2.1)

/-! ## Character-level lemmas for the case maps -/

theorem char_toNat_inj {c d : Char} (h : c.toNat = d.toNat) : c = d :=
  Char.ext (UInt32.toNat.inj h)

theorem char_toNat_ofNat {n : Nat} (h : n < 55296) : (Char.ofNat n).toNat = n := by
  rw [Char.ofNat, dif_pos (Or.inl h)]
  rfl

theorem toLower_toNat (c : Char) :
    c.toLower.toNat = if c.toNat ≥ 65 ∧ c.toNat ≤ 90 then c.toNat + 32 else c.toNat := by
  simp only [Char.toLower]
  split
  · next h => rw [char_toNat_ofNat (by omega)]
  · next h => rfl

theorem toUpper_toNat (c : Char) :
    c.toUpper.toNat = if c.toNat ≥ 97 ∧ c.toNat ≤ 122 then c.toNat - 32 else c.toNat := by
  simp only [Char.toUpper]
  split
  · next h => rw [char_toNat_ofNat (by omega)]
  · next h => rfl

theorem toLower_toLower (c : Char) : c.toLower.toLower = c.toLower := by
  apply char_toNat_inj
  rw [toLower_toNat, toLower_toNat]
  split_ifs <;> omega

theorem toUpper_toUpper (c : Char) : c.toUpper.toUpper = c.toUpper := by
  apply char_toNat_inj
  rw [toUpper_toNat, toUpper_toNat]
  split_ifs <;> omega

theorem toLower_toUpper (c : Char) : c.toUpper.toLower = c.toLower := by
  apply char_toNat_inj
  rw [toLower_toNat, toUpper_toNat, toLower_toNat]
  split_ifs <;> omega

theorem uint32_le_iff_toNat_le {a b : UInt32} : a ≤ b ↔ a.toNat ≤ b.toNat := by
  simp [UInt32.le_def, BitVec.le_def, UInt32.toNat]

theorem isDigit_toNat (c : Char) : c.isDigit = true ↔ 48 ≤ c.toNat ∧ c.toNat ≤ 57 := by
  simp only [Char.isDigit, Bool.and_eq_true, decide_eq_true_eq, ge_iff_le,
    uint32_le_iff_toNat_le]
  exact Iff.rfl

theorem digit_toUpper {c : Char} (h : c.isDigit = true) : c.toUpper = c := by
  apply char_toNat_inj
  rw [isDigit_toNat] at h
  rw [toUpper_toNat]
  split_ifs <;> omega

theorem isDigit_toLower (c : Char) : c.toLower.isDigit = c.isDigit := by
  rw [Bool.eq_iff_iff, isDigit_toNat, isDigit_toNat, toLower_toNat]
  split_ifs <;> omega

theorem isDigit_toUpper (c : Char) : c.toUpper.isDigit = c.isDigit := by
  rw [Bool.eq_iff_iff, isDigit_toNat, isDigit_toNat, toUpper_toNat]
  split_ifs <;> omega

theorem toUpper_toLower_comm (c : Char) : c.toLower.toUpper = c.toUpper := by
  apply char_toNat_inj
  rw [toUpper_toNat, toUpper_toNat, toLower_toNat]
  split_ifs <;> omega

theorem digit_toLower {c : Char} (h : c.isDigit = true) : c.toLower = c := by
  apply char_toNat_inj
  rw [isDigit_toNat] at h
  rw [toLower_toNat]
  split_ifs <;> omega

theorem isSpaceCh_false {c : Char} (h1 : 33 ≤ c.toNat) (h2 : c.toNat ≤ 8000) :
    isSpaceCh c = false := by
  simp only [isSpaceCh, Bool.or_eq_false_iff, decide_eq_false_iff_not]
  exact ⟨⟨⟨⟨⟨⟨fun he => absurd (he ▸ h1) (by decide), fun he => absurd (he ▸ h1) (by decide)⟩,
    fun he => absurd (he ▸ h1) (by decide)⟩, fun he => absurd (he ▸ h1) (by decide)⟩,
    fun he => absurd (he ▸ h1) (by decide)⟩, fun he => absurd (he ▸ h1) (by decide)⟩,
    fun he => absurd (he ▸ h2) (by decide)⟩

theorem char_beq_eq_false {a b : Char} (h : a.toNat ≠ b.toNat) : (a == b) = false := by
  rw [beq_eq_false_iff_ne]
  exact fun he => h (he ▸ rfl)

/-! ## Structure of `findCHNP` matches -/

theorem chnpAt_shape {s m : Str} (h : chnpAt s = some m) :
    ∃ c1 c2 d1 d2 d3 d4 rest,
      s = c1 :: c2 :: d1 :: d2 :: d3 :: d4 :: rest ∧ m = [c1, c2, d1, d2, d3, d4] ∧
        isCHNPPair c1 c2 = true ∧ d1.isDigit = true ∧ d2.isDigit = true ∧
          d3.isDigit = true ∧ d4.isDigit = true := by
  match s with
  | [] => simp [chnpAt] at h
  | [a] => simp [chnpAt] at h
  | [a, b] => simp [chnpAt] at h
  | [a, b, c] => simp [chnpAt] at h
  | [a, b, c, d] => simp [chnpAt] at h
  | [a, b, c, d, e] => simp [chnpAt] at h
  | c1 :: c2 :: d1 :: d2 :: d3 :: d4 :: rest =>
    simp only [chnpAt] at h
    split at h
    · next hc =>
      simp only [Option.some.injEq] at h
      simp only [Bool.and_eq_true] at hc
      exact ⟨c1, c2, d1, d2, d3, d4, rest, rfl, h.symm,
        hc.1.1.1.1, hc.1.1.1.2, hc.1.1.2, hc.1.2, hc.2⟩
    · exact absurd h (by simp)

theorem findCHNP_shape {s m : Str} (h : findCHNP s = some m) :
    ∃ c1 c2 d1 d2 d3 d4,
      m = [c1, c2, d1, d2, d3, d4] ∧
        isCHNPPair c1 c2 = true ∧ d1.isDigit = true ∧ d2.isDigit = true ∧
          d3.isDigit = true ∧ d4.isDigit = true := by
  induction s with
  | nil => simp [findCHNP] at h
  | cons c rest ih =>
    rw [findCHNP] at h
    revert h
    split
    · next m' hm =>
      intro h
      obtain ⟨c1, c2, d1, d2, d3, d4, r, _, hm', hp, h1, h2, h3, h4⟩ := chnpAt_shape hm
      have hmm : m' = m := by injection h
      exact ⟨c1, c2, d1, d2, d3, d4, hmm ▸ hm', hp, h1, h2, h3, h4⟩
    · next hm =>
      intro h
      exact ih h

theorem chnpAt_extend {t : Str} {m : Str} (w : Str) (h : chnpAt t = some m) :
    chnpAt (t ++ w) = some m := by
  obtain ⟨c1, c2, d1, d2, d3, d4, r, ht, hm, hp, h1, h2, h3, h4⟩ := chnpAt_shape h
  subst ht
  simpa [chnpAt, hp, h1, h2, h3, h4] using (by simpa [chnpAt, hp, h1, h2, h3, h4] using h)

theorem findCHNP_cons_none {c : Char} {s : Str} (h : findCHNP (c :: s) = none) :
    chnpAt (c :: s) = none ∧ findCHNP s = none := by
  rw [findCHNP] at h
  revert h
  split
  · intro h
    exact absurd h (by simp)
  · next hm =>
    intro h
    exact ⟨hm, h⟩

theorem findCHNP_drop_left {u t : Str} (h : findCHNP (u ++ t) = none) : findCHNP t = none := by
  induction u with
  | nil => exact h
  | cons c u ih => exact ih (findCHNP_cons_none h).2

theorem findCHNP_drop_right {t w : Str} (h : findCHNP (t ++ w) = none) : findCHNP t = none := by
  induction t with
  | nil => rfl
  | cons c t ih =>
    obtain ⟨h1, h2⟩ := findCHNP_cons_none (s := t ++ w) h
    rw [findCHNP]
    have hat : chnpAt (c :: t) = none := by
      cases hx : chnpAt (c :: t) with
      | none => rfl
      | some m => exact absurd (chnpAt_extend w hx) (by simp [List.cons_append, h1])
    rw [hat]
    exact ih h2

theorem findCHNP_infix_none {t s : Str} (hinf : t <:+: s) (h : findCHNP s = none) :
    findCHNP t = none := by
  obtain ⟨u, w, rfl⟩ := hinf
  rw [List.append_assoc] at h
  exact findCHNP_drop_right (findCHNP_drop_left h)

theorem chnpAt_map_toLower_none {s : Str} (h : chnpAt s = none) :
    chnpAt (s.map Char.toLower) = none := by
  match s with
  | [] => rfl
  | [a] => rfl
  | [a, b] => rfl
  | [a, b, c] => rfl
  | [a, b, c, d] => rfl
  | [a, b, c, d, e] => rfl
  | c1 :: c2 :: d1 :: d2 :: d3 :: d4 :: rest =>
    simp only [chnpAt, List.map] at h ⊢
    revert h
    split
    · intro h
      exact absurd h (by simp)
    · next hc =>
      intro _
      rw [if_neg]
      intro hc2
      apply hc
      simpa [isCHNPPair, toLower_toLower, isDigit_toLower] using hc2

theorem findCHNP_map_toLower_none {s : Str} (h : findCHNP s = none) :
    findCHNP (s.map Char.toLower) = none := by
  induction s with
  | nil => rfl
  | cons c rest ih =>
    obtain ⟨h1, h2⟩ := findCHNP_cons_none h
    have h1' := chnpAt_map_toLower_none h1
    rw [List.map_cons] at h1' ⊢
    rw [findCHNP, h1']
    exact ih h2

/-! ## The normalizer only keeps an infix of its input (pattern-free branch) -/

theorem stripEnd_prefix_self (p : Char → Bool) (s : Str) : stripEnd p s <+: s := by
  have h := List.dropWhile_suffix (l := s.reverse) p
  have h2 : (s.reverse.dropWhile p).reverse.reverse <:+ s.reverse := by
    simpa using h
  exact (List.reverse_suffix.mp h2)

theorem stripBoth_infix_self (p : Char → Bool) (s : Str) : stripBoth p s <:+: s := by
  exact ((stripEnd_prefix_self p (s.dropWhile p)).isInfix).trans (List.dropWhile_suffix p).isInfix

theorem stripNoisePrefixes_suffix_self (s : Str) : stripNoisePrefixes s <:+ s := by
  have h1 : ∀ (a p : Str),
      (if (p.map Char.toLower).isPrefixOf (a.map Char.toLower) then a.drop p.length else a)
        <:+ a := by
    intro a p
    split
    · exact List.drop_suffix _ _
    · exact List.suffix_rfl
  simp only [stripNoisePrefixes, List.foldl]
  exact (h1 _ _).trans ((h1 _ _).trans (h1 _ _))

theorem stripNoiseSuffixes_prefix_self (s : Str) : stripNoiseSuffixes s <+: s := by
  have h1 : ∀ (a sf : Str),
      (if sf.isSuffixOf a then a.take (a.length - sf.length) else a) <+: a := by
    intro a sf
    split
    · exact List.take_prefix _ _
    · exact List.prefix_rfl
  simp only [stripNoiseSuffixes, List.foldl]
  exact (h1 _ _).trans (h1 _ _)

theorem map_toUpper_idem (l : Str) : (l.map Char.toUpper).map Char.toUpper = l.map Char.toUpper := by
  rw [List.map_map]
  exact List.map_congr_left (fun c _ => toUpper_toUpper c)

theorem map_toLower_idem (l : Str) : (l.map Char.toLower).map Char.toLower = l.map Char.toLower := by
  rw [List.map_map]
  exact List.map_congr_left (fun c _ => toLower_toLower c)

/-! ## Claim C2: idempotence of the normalizer -/

/-- Claim C2 counterexample: `normalize` is not idempotent.  On `J_J_a` the
first pass strips one `J_` prefix and lower-cases, yielding `j_a`; a second
pass strips the now-exposed `j_` as well, yielding `a`. -/
theorem claim_C2_counterexample :
    normalizeFileId (normalizeFileId (("J_J_a").data)) ≠ normalizeFileId (("J_J_a").data) := by
  decide

theorem findCHNP_normalize_none {x : Str} (hf : findCHNP x = none) :
    findCHNP (normalizeFileId x) = none := by
  have hx : normalizeFileId x =
      (stripNoiseSuffixes (stripNoisePrefixes (stripBoth isSpaceCh x))).map Char.toLower := by
    simp [normalizeFileId, hf]
  have hinf : stripNoiseSuffixes (stripNoisePrefixes (stripBoth isSpaceCh x)) <:+: x :=
    ((stripNoiseSuffixes_prefix_self _).isInfix).trans
      (((stripNoisePrefixes_suffix_self _).isInfix).trans (stripBoth_infix_self _ _))
  rw [hx]
  exact findCHNP_map_toLower_none (findCHNP_infix_none hinf hf)

/-- A normalized output is idempotent under `normalize` whenever it is a fixed
point of the three affix-stripping phases. -/
theorem normalize_idem_of_fixed (x : Str)
    (h1 : stripBoth isSpaceCh (normalizeFileId x) = normalizeFileId x)
    (h2 : stripNoisePrefixes (normalizeFileId x) = normalizeFileId x)
    (h3 : stripNoiseSuffixes (normalizeFileId x) = normalizeFileId x) :
    normalizeFileId (normalizeFileId x) = normalizeFileId x := by
  cases hf : findCHNP x with
  | some m =>
    obtain ⟨c1, c2, d1, d2, d3, d4, hm, hp, hd1, hd2, hd3, hd4⟩ := findCHNP_shape hf
    have hx : normalizeFileId x = m.map Char.toUpper := by
      simp [normalizeFileId, hf]
    subst hm
    have hpair : isCHNPPair c1.toUpper c2.toUpper = true := by
      simpa [isCHNPPair, toLower_toUpper] using hp
    have key : findCHNP ([c1, c2, d1, d2, d3, d4].map Char.toUpper) =
        some ([c1, c2, d1, d2, d3, d4].map Char.toUpper) := by
      simp only [List.map]
      rw [findCHNP]
      have hat : chnpAt
          [c1.toUpper, c2.toUpper, d1.toUpper, d2.toUpper, d3.toUpper, d4.toUpper] =
          some [c1.toUpper, c2.toUpper, d1.toUpper, d2.toUpper, d3.toUpper, d4.toUpper] := by
        simp [chnpAt, hpair, isDigit_toUpper, hd1, hd2, hd3, hd4]
      rw [hat]
    rw [hx]
    simp only [normalizeFileId, key]
    exact map_toUpper_idem _
  | none =>
    have hx : normalizeFileId x =
        (stripNoiseSuffixes (stripNoisePrefixes (stripBoth isSpaceCh x))).map Char.toLower := by
      simp [normalizeFileId, hf]
    have hnone : findCHNP (normalizeFileId x) = none := findCHNP_normalize_none hf
    have hlow : (normalizeFileId x).map Char.toLower = normalizeFileId x := by
      rw [hx]
      exact map_toLower_idem _
    set r := normalizeFileId x with hr
    simp [normalizeFileId, hnone, h1, h2, h3, hlow]

/-- In the CH/NP-pattern branch the normalized output (`CH` or `NP` plus four
digits, upper-cased) is always a fixed point of the affix-stripping phases. -/
theorem normalize_some_fixed {x m : Str} (hf : findCHNP x = some m) :
    stripBoth isSpaceCh (normalizeFileId x) = normalizeFileId x ∧
      stripNoisePrefixes (normalizeFileId x) = normalizeFileId x ∧
        stripNoiseSuffixes (normalizeFileId x) = normalizeFileId x := by
  obtain ⟨c1, c2, d1, d2, d3, d4, hm, hp, hd1, hd2, hd3, hd4⟩ := findCHNP_shape hf
  have hx : normalizeFileId x = m.map Char.toUpper := by
    simp [normalizeFileId, hf]
  subst hm
  rw [hx]
  have hu1 : d1.toUpper = d1 := digit_toUpper hd1
  have hu2 : d2.toUpper = d2 := digit_toUpper hd2
  have hu3 : d3.toUpper = d3 := digit_toUpper hd3
  have hu4 : d4.toUpper = d4 := digit_toUpper hd4
  simp only [List.map_cons, List.map_nil, hu1, hu2, hu3, hu4]
  simp only [isCHNPPair, Bool.or_eq_true, Bool.and_eq_true, decide_eq_true_eq] at hp
  have ha : c1.toUpper.toNat = 67 ∨ c1.toUpper.toNat = 78 := by
    rcases hp with ⟨h, _⟩ | ⟨h, _⟩
    · left
      rw [← toUpper_toLower_comm, h]
      decide
    · right
      rw [← toUpper_toLower_comm, h]
      decide
  have hb : c2.toUpper.toNat = 72 ∨ c2.toUpper.toNat = 80 := by
    rcases hp with ⟨_, h⟩ | ⟨_, h⟩
    · left
      rw [← toUpper_toLower_comm, h]
      decide
    · right
      rw [← toUpper_toLower_comm, h]
      decide
  have b1 := (isDigit_toNat d1).mp hd1
  have b2 := (isDigit_toNat d2).mp hd2
  have b3 := (isDigit_toNat d3).mp hd3
  have b4 := (isDigit_toNat d4).mp hd4
  have hla : c1.toUpper.toLower.toNat = c1.toUpper.toNat + 32 := by
    rw [toLower_toNat]
    rcases ha with h | h <;> rw [h] <;> decide
  have hlb : c2.toUpper.toLower.toNat = c2.toUpper.toNat + 32 := by
    rw [toLower_toNat]
    rcases hb with h | h <;> rw [h] <;> decide
  refine ⟨?_, ?_, ?_⟩
  · have hsa : isSpaceCh c1.toUpper = false := isSpaceCh_false (by omega) (by omega)
    have hsd4 : isSpaceCh d4 = false := isSpaceCh_false (by omega) (by omega)
    have hrev : ([c1.toUpper, c2.toUpper, d1, d2, d3, d4] : Str).reverse
        = [d4, d3, d2, d1, c2.toUpper, c1.toUpper] := by rfl
    simp [stripBoth, stripEnd, List.dropWhile_cons, hsa, hrev, hsd4]
  · have hJm : (("J_").data).map Char.toLower = ("j_").data := by decide
    have hNm : (("new_").data).map Char.toLower = ("new_").data := by decide
    have hOm : (("old_").data).map Char.toLower = ("old_").data := by decide
    have hl1 : d1.toLower = d1 := digit_toLower hd1
    have hl2 : d2.toLower = d2 := digit_toLower hd2
    have hl3 : d3.toLower = d3 := digit_toLower hd3
    have hl4 : d4.toLower = d4 := digit_toLower hd4
    have hj : (('j' : Char) == c1.toUpper.toLower) = false := by
      apply char_beq_eq_false
      have hjn : ('j' : Char).toNat = 106 := rfl
      omega
    have he' : (('e' : Char) == c2.toUpper.toLower) = false := by
      apply char_beq_eq_false
      have hen : ('e' : Char).toNat = 101 := rfl
      omega
    have ho : (('o' : Char) == c1.toUpper.toLower) = false := by
      apply char_beq_eq_false
      have hon : ('o' : Char).toNat = 111 := rfl
      omega
    simp [stripNoisePrefixes, List.foldl, hJm, hNm, hOm, List.isPrefixOf, hj, he', ho,
      hl1, hl2, hl3, hl4]
  · have hs1 : (("_spr").data).reverse = ("rps_").data := by decide
    have hs2 : (("_spr_update").data).reverse = ("etadpu_rps_").data := by decide
    have hrd : (('r' : Char) == d4) = false := by
      apply char_beq_eq_false
      have hrn : ('r' : Char).toNat = 114 := rfl
      omega
    have hed : (('e' : Char) == d4) = false := by
      apply char_beq_eq_false
      have hen : ('e' : Char).toNat = 101 := rfl
      omega
    simp [stripNoiseSuffixes, List.foldl, List.isSuffixOf, hs1, hs2, List.isPrefixOf,
      hrd, hed]

/-- Conversely, whenever `normalize` is idempotent at `x` its output is a
fixed point of the three affix-stripping phases (lengths force every phase of
the second pass to keep everything). -/
theorem normalize_fixed_of_idem {x : Str}
    (h : normalizeFileId (normalizeFileId x) = normalizeFileId x) :
    stripBoth isSpaceCh (normalizeFileId x) = normalizeFileId x ∧
      stripNoisePrefixes (normalizeFileId x) = normalizeFileId x ∧
        stripNoiseSuffixes (normalizeFileId x) = normalizeFileId x := by
  cases hf : findCHNP x with
  | some m => exact normalize_some_fixed hf
  | none =>
    have hnone : findCHNP (normalizeFileId x) = none := findCHNP_normalize_none hf
    set r := normalizeFileId x with hr
    have h' : (stripNoiseSuffixes (stripNoisePrefixes
        (stripBoth isSpaceCh r))).map Char.toLower = r := by
      calc (stripNoiseSuffixes (stripNoisePrefixes
              (stripBoth isSpaceCh r))).map Char.toLower
          = normalizeFileId r := by simp [normalizeFileId, hnone]
        _ = r := h
    have l1 := (stripBoth_infix_self isSpaceCh r).length_le
    have l2 := (stripNoisePrefixes_suffix_self (stripBoth isSpaceCh r)).length_le
    have l3 := (stripNoiseSuffixes_prefix_self
      (stripNoisePrefixes (stripBoth isSpaceCh r))).length_le
    have hlen := congrArg List.length h'
    rw [List.length_map] at hlen
    have q1 : stripBoth isSpaceCh r = r :=
      (stripBoth_infix_self isSpaceCh r).eq_of_length (by omega)
    have q2 : stripNoisePrefixes (stripBoth isSpaceCh r) = stripBoth isSpaceCh r :=
      (stripNoisePrefixes_suffix_self _).eq_of_length (by omega)
    have q3 : stripNoiseSuffixes (stripNoisePrefixes (stripBoth isSpaceCh r)) =
        stripNoisePrefixes (stripBoth isSpaceCh r) :=
      (stripNoiseSuffixes_prefix_self _).eq_of_length (by omega)
    rw [q1] at q2 q3
    rw [q2] at q3
    exact ⟨q1, q2, q3⟩

/-- Claim C2 (amended): the normalizer is idempotent at `x` EXACTLY when its
output is a fixed point of the affix-stripping phase — of the second
whitespace-strip, noise-prefix-strip and noise-suffix-strip — and in the
CH/NP-pattern branch idempotence (hence the fixed-point condition) holds
unconditionally. -/
theorem claim_C2_normalize_idem_iff (x : Str) :
    (normalizeFileId (normalizeFileId x) = normalizeFileId x ↔
      stripBoth isSpaceCh (normalizeFileId x) = normalizeFileId x ∧
        stripNoisePrefixes (normalizeFileId x) = normalizeFileId x ∧
          stripNoiseSuffixes (normalizeFileId x) = normalizeFileId x) ∧
      (∀ m, findCHNP x = some m →
        normalizeFileId (normalizeFileId x) = normalizeFileId x) := by
  constructor
  · constructor
    · exact fun h => normalize_fixed_of_idem h
    · rintro ⟨h1, h2, h3⟩
      exact normalize_idem_of_fixed x h1 h2 h3
  · intro m hm
    obtain ⟨f1, f2, f3⟩ := normalize_some_fixed hm
    exact normalize_idem_of_fixed x f1 f2 f3

/-- Witness for the amended C2: the iff at `shiroko_robber` (pattern-free,
fixed point) and the unconditional branch at `J_CH0201_spr`. -/
theorem claim_C2_witness :
    normalizeFileId (normalizeFileId (("shiroko_robber").data)) =
        normalizeFileId (("shiroko_robber").data) ∧
      normalizeFileId (normalizeFileId (("J_CH0201_spr").data)) =
        normalizeFileId (("J_CH0201_spr").data) :=
  ⟨(claim_C2_normalize_idem_iff (("shiroko_robber").data)).1.mpr
      ⟨by decide, by decide, by decide⟩,
    (claim_C2_normalize_idem_iff (("J_CH0201_spr").data)).2 (("CH0201").data) (by decide)⟩

/-! ## Claim C6: the affix-stripping branch of the normalizer -/

/-- The prefix handling exactly as claim C6 words it: at most ONE of the
leading prefixes is removed (the first that matches, case-insensitively). -/
def stripOnePrefixSpec (s : Str) : Str :=
  if (("j_").data).isPrefixOf (s.map Char.toLower) then s.drop 2
  else if (("new_").data).isPrefixOf (s.map Char.toLower) then s.drop 4
  else if (("old_").data).isPrefixOf (s.map Char.toLower) then s.drop 4
  else s

/-- The normalizer's pattern-free branch as claim C6 words it. -/
def normalizeSpecC6 (s : Str) : Str :=
  (stripNoiseSuffixes (stripOnePrefixSpec s)).map Char.toLower

/-- Claim C6 counterexample: on `J_new_a` (which contains no CH/NP pattern)
the code removes TWO leading prefixes, returning `a`, while the claimed
at-most-one-prefix behaviour would return `new_a`. -/
theorem claim_C6_counterexample :
    findCHNP (("J_new_a").data) = none ∧
      normalizeFileId (("J_new_a").data) = ("a").data ∧
        normalizeSpecC6 (("J_new_a").data) = ("new_a").data ∧
          normalizeFileId (("J_new_a").data) ≠ normalizeSpecC6 (("J_new_a").data) := by
  decide

/-- The prefix phase as the code actually behaves: one occurrence of EACH of
`J_`, `new_`, `old_` may be removed, tested in that order, case-insensitively. -/
def stripEachPrefixSpec (s : Str) : Str :=
  let s1 := if (("j_").data).isPrefixOf (s.map Char.toLower) then s.drop 2 else s
  let s2 := if (("new_").data).isPrefixOf (s1.map Char.toLower) then s1.drop 4 else s1
  if (("old_").data).isPrefixOf (s2.map Char.toLower) then s2.drop 4 else s2

/-- The suffix phase spelled out: one occurrence of `_spr`, then one of
`_spr_update`, removed by exact-suffix match. -/
def stripEachSuffixSpec (s : Str) : Str :=
  let s1 := if (("_spr").data).isSuffixOf s then s.take (s.length - 4) else s
  if (("_spr_update").data).isSuffixOf s1 then s1.take (s1.length - 11) else s1

/-- Claim C6 (amended): for pattern-free inputs the normalizer strips
whitespace, removes at most one occurrence of EACH leading noise prefix
(in the order `J_`, `new_`, `old_`, case-insensitively), removes at most one
occurrence of each trailing noise suffix (`_spr` then `_spr_update`,
exact-suffix match), and lower-cases the residual. -/
theorem claim_C6_affix_stripping (x : Str) (h : findCHNP x = none) :
    normalizeFileId x =
      (stripEachSuffixSpec (stripEachPrefixSpec (stripBoth isSpaceCh x))).map Char.toLower := by
  have hJ : (("J_").data).map Char.toLower = ("j_").data := by decide
  have hN : (("new_").data).map Char.toLower = ("new_").data := by decide
  have hO : (("old_").data).map Char.toLower = ("old_").data := by decide
  have hpre : ∀ z : Str, stripNoisePrefixes z = stripEachPrefixSpec z := by
    intro z
    simp only [stripNoisePrefixes, List.foldl, stripEachPrefixSpec, hJ, hN, hO]
    rfl
  have hsuf : ∀ z : Str, stripNoiseSuffixes z = stripEachSuffixSpec z := by
    intro z
    simp only [stripNoiseSuffixes, List.foldl, stripEachSuffixSpec]
    rfl
  simp only [normalizeFileId, h, hpre, hsuf]

/-- Witness for the amended C6 at the concrete input `J_new_a_spr`. -/
theorem claim_C6_witness :
    findCHNP (("J_new_a_spr").data) = none ∧
      normalizeFileId (("J_new_a_spr").data) =
        (stripEachSuffixSpec (stripEachPrefixSpec
          (stripBoth isSpaceCh (("J_new_a_spr").data)))).map Char.toLower :=
  ⟨by decide, claim_C6_affix_stripping (("J_new_a_spr").data) (by decide)⟩

/-! ## Claim C3: the `CH0087_1` end-to-end scenario -/

/-- The character record of the C3 scenario: family/given name pairs in all
six languages, base skin label empty. -/
def scenarioC3Student : StudentData :=
  { family_name := some (("砂狼").data), given_name := some (("白子").data)
    family_name_cn := some (("砂狼").data), given_name_cn := some (("白子").data)
    family_name_jp := some (("砂狼").data), given_name_jp := some (("シロコ").data)
    family_name_zh_tw := some (("砂狼").data), given_name_zh_tw := some (("白子").data)
    family_name_en := some (("Sunaookami").data), given_name_en := some (("Shiroko").data)
    family_name_kr := some (("스나오오카미").data), given_name_kr := some (("시로코").data)
    skin := some []
    school := some 1
    id := some 5 }

/-- The single spine asset of the C3 scenario. -/
def scenarioC3Spine : SpineItem :=
  { id := some 10
    name := some (("CH0087_1").data)
    type := some (("spr").data)
    remark := some (("初始立绘").data) }

/-- Claim C3 counterexample: the scenario does NOT yield the lower-cased
fallback identifier `ch0087_1`: `re.search((CH|NP)\d{4})` has no anchor after
the four digits, so it matches the first four digits of `CH0087_1` and
returns `CH0087`. -/
theorem claim_C3_counterexample :
    (parse (some ⟨.present scenarioC3Student⟩) 5 [scenarioC3Spine]).1.map
        (fun f => f.file_id) = [("CH0087").data] ∧
      ("CH0087").data ≠ ("ch0087_1").data := by
  decide

/-- Claim C3 (amended): the scenario yields exactly one Form whose identifier
is `CH0087` (upper-cased via the CH/NP-pattern branch, the trailing `_1`
notwithstanding), with all six name fields populated from the name components
alone and no suffix (the cleaned remark is empty), no skips and no
student-level skip reason. -/
theorem claim_C3_scenario :
    parse (some ⟨.present scenarioC3Student⟩) 5 [scenarioC3Spine] =
      ([{ file_id := ("CH0087").data
          char_id := 5
          spine_id := some 10
          full_name := ("砂狼 白子").data
          name := ("砂狼 白子").data
          skin_name := []
          name_cn := ("砂狼 白子").data
          name_jp := ("砂狼 シロコ").data
          name_tw := ("砂狼 白子").data
          name_en := ("Sunaookami Shiroko").data
          name_kr := ("스나오오카미 시로코").data }],
        [], none) := by
  decide

/-! ## Claim C5: the remark cleaner never grows its input -/

theorem subAllGo_length (m : Str → Option (Nat × Str))
    (hm : ∀ s n rep, m s = some (n, rep) → rep.length ≤ n ∧ n ≤ s.length) :
    ∀ (skip : Nat) (s : Str), (subAllGo m skip s).length ≤ s.length - skip := by
  intro skip s
  induction s generalizing skip with
  | nil => cases skip <;> simp [subAllGo]
  | cons c rest ih =>
    cases skip with
    | succ k =>
      have := ih k
      calc (subAllGo m (k + 1) (c :: rest)).length
          = (subAllGo m k rest).length := by rw [subAllGo]
        _ ≤ (c :: rest).length - (k + 1) := by simp; omega
    | zero =>
      cases hx : m (c :: rest) with
      | none =>
        have := ih 0
        calc (subAllGo m 0 (c :: rest)).length
            = (c :: subAllGo m 0 rest).length := by rw [subAllGo, hx]
          _ ≤ (c :: rest).length - 0 := by simp; omega
      | some pr =>
        match pr with
        | (0, rep) =>
          have := ih 0
          calc (subAllGo m 0 (c :: rest)).length
              = (c :: subAllGo m 0 rest).length := by rw [subAllGo, hx]
            _ ≤ (c :: rest).length - 0 := by simp; omega
        | (n + 1, rep) =>
          have h1 := hm _ _ _ hx
          simp only [List.length_cons] at h1
          have h2 := ih n
          calc (subAllGo m 0 (c :: rest)).length
              = (rep ++ subAllGo m n rest).length := by rw [subAllGo, hx]
            _ ≤ (c :: rest).length - 0 := by simp; omega

theorem subAll_length (m : Str → Option (Nat × Str))
    (hm : ∀ s n rep, m s = some (n, rep) → rep.length ≤ n ∧ n ≤ s.length) (s : Str) :
    (subAll m s).length ≤ s.length := by
  simpa using subAllGo_length m hm 0 s

theorem subAllPosGo_length (m : Option Char → Str → Option (Nat × Str))
    (hm : ∀ p s n rep, m p s = some (n, rep) → rep.length ≤ n ∧ n ≤ s.length) :
    ∀ (skip : Nat) (prev : Option Char) (s : Str),
      (subAllPosGo m skip prev s).length ≤ s.length - skip := by
  intro skip prev s
  induction s generalizing skip prev with
  | nil => cases skip <;> simp [subAllPosGo]
  | cons c rest ih =>
    cases skip with
    | succ k =>
      have := ih k (some c)
      calc (subAllPosGo m (k + 1) prev (c :: rest)).length
          = (subAllPosGo m k (some c) rest).length := by rw [subAllPosGo]
        _ ≤ (c :: rest).length - (k + 1) := by simp; omega
    | zero =>
      cases hx : m prev (c :: rest) with
      | none =>
        have := ih 0 (some c)
        calc (subAllPosGo m 0 prev (c :: rest)).length
            = (c :: subAllPosGo m 0 (some c) rest).length := by rw [subAllPosGo, hx]
          _ ≤ (c :: rest).length - 0 := by simp; omega
      | some pr =>
        match pr with
        | (0, rep) =>
          have := ih 0 (some c)
          calc (subAllPosGo m 0 prev (c :: rest)).length
              = (c :: subAllPosGo m 0 (some c) rest).length := by rw [subAllPosGo, hx]
            _ ≤ (c :: rest).length - 0 := by simp; omega
        | (n + 1, rep) =>
          have h1 := hm _ _ _ _ hx
          simp only [List.length_cons] at h1
          have h2 := ih n (some c)
          calc (subAllPosGo m 0 prev (c :: rest)).length
              = (rep ++ subAllPosGo m n (some c) rest).length := by rw [subAllPosGo, hx]
            _ ≤ (c :: rest).length - 0 := by simp; omega

theorem subAllPos_length (m : Option Char → Str → Option (Nat × Str))
    (hm : ∀ p s n rep, m p s = some (n, rep) → rep.length ≤ n ∧ n ≤ s.length)
    (prev : Option Char) (s : Str) :
    (subAllPos m prev s).length ≤ s.length := by
  simpa using subAllPosGo_length m hm 0 prev s

theorem stripEnd_length (p : Char → Bool) (s : Str) : (stripEnd p s).length ≤ s.length :=
  (stripEnd_prefix_self p s).length_le

theorem stripBoth_length (p : Char → Bool) (s : Str) : (stripBoth p s).length ≤ s.length :=
  le_trans (stripEnd_length p (s.dropWhile p)) (List.dropWhile_suffix p).length_le

theorem digitRun_le (s : Str) : digitRun s ≤ s.length := by
  induction s with
  | nil => simp [digitRun]
  | cons c r ih =>
    by_cases h : c.isDigit
    · simp only [digitRun, h, if_true, List.length_cons]
      omega
    · simp [digitRun, h]

theorem findCloseIdx_lt {s : Str} {j : Nat} (h : findCloseIdx s = some j) : j < s.length := by
  induction s generalizing j with
  | nil => simp [findCloseIdx] at h
  | cons c r ih =>
    rw [findCloseIdx] at h
    split at h
    · injection h with h
      simp [← h]
    · cases hx : findCloseIdx r with
      | none => rw [hx] at h; simp at h
      | some j' =>
        rw [hx] at h
        simp at h
        have := ih hx
        simp
        omega

theorem qualifierLen_le (s : Str) : qualifierLen s ≤ s.length := by
  rw [qualifierLen]
  split_ifs with h1 h2 h3 h4
  · rcases h1 with h | h <;>
      simpa using (List.isPrefixOf_iff_prefix.mp h).length_le
  · rcases h2 with h | h <;>
      simpa using (List.isPrefixOf_iff_prefix.mp h).length_le
  · simpa using (List.isPrefixOf_iff_prefix.mp h3).length_le
  · simpa using (List.isPrefixOf_iff_prefix.mp h4).length_le
  · omega

theorem litRepM_ok (lit rep : Str) (h : rep.length ≤ lit.length) :
    ∀ s n r', litRepM lit rep s = some (n, r') → r'.length ≤ n ∧ n ≤ s.length := by
  intro s n r' hx
  rw [litRepM] at hx
  split at hx
  · next hp =>
    injection hx with hx
    rw [Prod.mk.injEq] at hx
    obtain ⟨rfl, rfl⟩ := hx
    exact ⟨h, (List.isPrefixOf_iff_prefix.mp hp).length_le⟩
  · exact absurd hx (by simp)

theorem litM_ok (lit : Str) :
    ∀ s n r', litM lit s = some (n, r') → r'.length ≤ n ∧ n ≤ s.length :=
  litRepM_ok lit [] (by simp)

theorem parenDateHead_le {s : Str} {L : Nat} (h : parenDateHead s = some L) : L ≤ s.length := by
  rw [parenDateHead] at h
  split at h
  · next hk =>
    split at h
    · next m r2 heq =>
      split at h
      · cases hx : findCloseIdx r2 with
        | none => rw [hx] at h; simp at h
        | some j =>
          rw [hx] at h
          simp only [Option.map_some'] at h
          injection h with h
          have hj := findCloseIdx_lt hx
          have hlen := congrArg List.length heq
          simp only [List.length_drop, List.length_cons] at hlen
          have hk2 := digitRun_le s
          omega
      · simp at h
    · simp at h
  · simp at h

theorem parenDateInner_le {s : Str} {L : Nat} (h : parenDateInner s = some L) : L ≤ s.length := by
  induction s generalizing L with
  | nil => simp [parenDateInner] at h
  | cons c rest ih =>
    rw [parenDateInner] at h
    split at h
    · simp at h
    · split at h
      · next n' hh =>
        injection h with h
        have := parenDateHead_le hh
        omega
      · cases hx : parenDateInner rest with
        | none => rw [hx] at h; simp at h
        | some L' =>
          rw [hx] at h
          simp only [Option.map_some'] at h
          injection h with h
          have := ih hx
          simp only [List.length_cons]
          omega

theorem parenDateM_ok :
    ∀ s n rep, parenDateM s = some (n, rep) → rep.length ≤ n ∧ n ≤ s.length := by
  intro s n rep hx
  match s with
  | [] => simp [parenDateM] at hx
  | c :: rest =>
    rw [parenDateM] at hx
    split at hx
    · cases hI : parenDateInner rest with
      | none => rw [hI] at hx; simp at hx
      | some L =>
        rw [hI] at hx
        simp only [Option.map_some'] at hx
        injection hx with hx
        rw [Prod.mk.injEq] at hx
        obtain ⟨rfl, rfl⟩ := hx
        have := parenDateInner_le hI
        simp only [List.length_nil, List.length_cons]
        omega
    · simp at hx

theorem takeWhile_length_le (p : Char → Bool) (s : Str) : (s.takeWhile p).length ≤ s.length :=
  (List.takeWhile_prefix p).length_le

theorem bareDateM_ok :
    ∀ s n rep, bareDateM s = some (n, rep) → rep.length ≤ n ∧ n ≤ s.length := by
  intro s n rep hx
  simp only [bareDateM] at hx
  split at hx
  · next hk1 =>
    split at hx
    · next m1 r1 heq1 =>
      split at hx
      · next hm1 =>
        split at hx
        · next hk2 =>
          split at hx
          · next m2 r2 heq2 =>
            split at hx
            · next hm2 =>
              injection hx with hx
              rw [Prod.mk.injEq] at hx
              obtain ⟨rfl, rfl⟩ := hx
              refine ⟨by simp, ?_⟩
              have hl1 := congrArg List.length heq1
              have hl2 := congrArg List.length heq2
              simp only [List.length_drop, List.length_cons] at hl1 hl2
              have hd1 := digitRun_le s
              have hd2 := digitRun_le r1
              set k3 := min (digitRun r2) 2 with hk3
              set r3 := r2.drop k3 with hr3
              set dl := (if r3.head? = some '日' then 1 else 0) with hdl
              set r4 := r3.drop dl with hr4
              set ws := (r4.takeWhile isSpaceCh).length with hws
              have h3 : k3 ≤ r2.length := le_trans (min_le_left _ _) (digitRun_le r2)
              have h4 : dl ≤ r3.length := by
                rw [hdl]
                split
                · next hh =>
                  cases hr : r3 with
                  | nil => rw [hr] at hh; simp at hh
                  | cons a t => simp
                · omega
              have h5 : ws ≤ r4.length := takeWhile_length_le isSpaceCh r4
              have h6 : qualifierLen (r4.drop ws) ≤ (r4.drop ws).length := qualifierLen_le _
              have l3 : r3.length = r2.length - k3 := by rw [hr3, List.length_drop]
              have l4 : r4.length = r3.length - dl := by rw [hr4, List.length_drop]
              have l5 : (r4.drop ws).length = r4.length - ws := by rw [List.length_drop]
              omega
            · simp at hx
          · simp at hx
        · simp at hx
      · simp at hx
    · simp at hx
  · simp at hx

theorem head_some_pos {l : Str} {d : Char} (h : l.head? = some d) : 1 ≤ l.length := by
  cases l with
  | nil => simp at h
  | cons a t => simp

theorem updatedToLiveM_ok :
    ∀ s n rep, updatedToLiveM s = some (n, rep) → rep.length ≤ n ∧ n ≤ s.length := by
  intro s n rep hx
  match s with
  | [] => simp [updatedToLiveM] at hx
  | c :: rest =>
    rw [updatedToLiveM] at hx
    split at hx
    · split at hx
      · split at hx
        · next hp =>
          split at hx
          · next d heq =>
            split at hx
            · injection hx with hx
              rw [Prod.mk.injEq] at hx
              obtain ⟨rfl, rfl⟩ := hx
              refine ⟨by simp, ?_⟩
              have h5 : 5 ≤ (rest.drop 1).length :=
                by simpa using (List.isPrefixOf_iff_prefix.mp hp).length_le
              have h1 := head_some_pos heq
              simp only [List.length_drop, List.length_cons] at h5 h1 ⊢
              omega
            · simp at hx
          · simp at hx
        · simp at hx
      · split at hx
        · next hp =>
          split at hx
          · next d heq =>
            split at hx
            · injection hx with hx
              rw [Prod.mk.injEq] at hx
              obtain ⟨rfl, rfl⟩ := hx
              refine ⟨by simp, ?_⟩
              have h5 : 5 ≤ rest.length :=
                by simpa using (List.isPrefixOf_iff_prefix.mp hp).length_le
              have h1 := head_some_pos heq
              simp only [List.length_drop, List.length_cons] at h1 ⊢
              omega
            · simp at hx
          · simp at hx
        · simp at hx
    · simp at hx

theorem revisedM_ok :
    ∀ s n rep, revisedM s = some (n, rep) → rep.length ≤ n ∧ n ≤ s.length := by
  intro s n rep hx
  rw [revisedM] at hx
  split_ifs at hx with h1 h2
  · injection hx with hx
    rw [Prod.mk.injEq] at hx
    obtain ⟨rfl, rfl⟩ := hx
    exact ⟨by simp, by simpa using (List.isPrefixOf_iff_prefix.mp h1).length_le⟩
  · injection hx with hx
    rw [Prod.mk.injEq] at hx
    obtain ⟨rfl, rfl⟩ := hx
    exact ⟨by simp, by simpa using (List.isPrefixOf_iff_prefix.mp h2).length_le⟩

theorem oldNewCharM_ok :
    ∀ s n rep, oldNewCharM s = some (n, rep) → rep.length ≤ n ∧ n ≤ s.length := by
  intro s n rep hx
  rw [oldNewCharM] at hx
  split at hx
  · next hh =>
    injection hx with hx
    rw [Prod.mk.injEq] at hx
    obtain ⟨rfl, rfl⟩ := hx
    refine ⟨by simp, ?_⟩
    cases s with
    | nil => rcases hh with h | h <;> simp at h
    | cons a t => simp
  · simp at hx

theorem emptyParenM_ok :
    ∀ s n rep, emptyParenM s = some (n, rep) → rep.length ≤ n ∧ n ≤ s.length := by
  intro s n rep hx
  match s with
  | [] => simp [emptyParenM] at hx
  | [a] => simp [emptyParenM] at hx
  | a :: b :: t =>
    rw [emptyParenM] at hx
    split at hx
    · injection hx with hx
      rw [Prod.mk.injEq] at hx
      obtain ⟨rfl, rfl⟩ := hx
      simp
    · simp at hx

theorem doubleCommaM_ok :
    ∀ s n rep, doubleCommaM s = some (n, rep) → rep.length ≤ n ∧ n ≤ s.length := by
  intro s n rep hx
  match s with
  | [] => simp [doubleCommaM] at hx
  | c :: rest =>
    simp only [doubleCommaM] at hx
    split at hx
    · split at hx
      · next d heq =>
        split at hx
        · injection hx with hx
          rw [Prod.mk.injEq] at hx
          obtain ⟨rfl, rfl⟩ := hx
          refine ⟨by simp, ?_⟩
          have hws := takeWhile_length_le isSpaceCh rest
          have hne : (rest.drop (rest.takeWhile isSpaceCh).length).length ≠ 0 := by
            intro h0
            rw [List.length_eq_zero] at h0
            rw [h0] at heq
            simp at heq
          simp only [List.length_drop] at hne
          simp only [List.length_cons]
          omega
        · simp at hx
      · simp at hx
    · simp at hx

theorem parenToCommaM_ok :
    ∀ s n rep, parenToCommaM s = some (n, rep) → rep.length ≤ n ∧ n ≤ s.length := by
  intro s n rep hx
  match s with
  | [] => simp [parenToCommaM] at hx
  | c :: rest =>
    simp only [parenToCommaM] at hx
    split at hx
    · split at hx
      · next j hj =>
        have hjlt := findCloseIdx_lt hj
        split at hx
        · simp at hx
        · next hne =>
          split at hx
          · -- all-whitespace content: capture a single whitespace character
            injection hx with hx
            rw [Prod.mk.injEq] at hx
            obtain ⟨rfl, rfl⟩ := hx
            have h1 : (rest.take j).length ≤ j := by
              simpa using List.length_take_le j rest
            have h2 : (rest.take j).length ≠ 0 := by
              intro h0
              rw [List.length_eq_zero] at h0
              exact hne h0
            constructor
            · simp only [List.length_append, List.length_cons, List.length_nil,
                List.length_drop]
              omega
            · simp only [List.length_cons]
              omega
          · injection hx with hx
            rw [Prod.mk.injEq] at hx
            obtain ⟨rfl, rfl⟩ := hx
            have h1 : (rest.take j).length ≤ j := by
              simpa using List.length_take_le j rest
            have h3 : (stripBoth isSpaceCh (rest.take j)).length ≤ (rest.take j).length :=
              stripBoth_length _ _
            constructor
            · simp only [List.length_append, List.length_cons, List.length_nil]
              omega
            · simp only [List.length_cons]
              omega
      · simp at hx
    · simp at hx

theorem dressM_ok :
    ∀ s n rep, dressM s = some (n, rep) → rep.length ≤ n ∧ n ≤ s.length := by
  intro s n rep hx
  rw [dressM] at hx
  split at hx
  · next hp =>
    injection hx with hx
    rw [Prod.mk.injEq] at hx
    obtain ⟨rfl, rfl⟩ := hx
    refine ⟨by simp, ?_⟩
    rcases hp with h | h <;> simpa using (List.isPrefixOf_iff_prefix.mp h).length_le
  · simp at hx

theorem wordHit_le {lit s : Str} {n : Nat} (h : wordHit lit s = some n) : n ≤ s.length := by
  rw [wordHit] at h
  split at h
  · next hc =>
    split at h
    · simp at h
    · injection h with h
      omega
  · simp at h

theorem verHit_le {s : Str} {n : Nat} (h : verHit s = some n) : n ≤ s.length := by
  simp only [verHit] at h
  split at h
  · next hc =>
    split at h
    · next hdot =>
      have hlen : 4 ≤ s.length := by
        have h0 : (s.drop 3).length ≠ 0 := by
          intro h0
          rw [List.length_eq_zero] at h0
          rw [h0] at hdot
          simp at hdot
        simp only [List.length_drop] at h0
        omega
      have hds : ((s.drop 3).drop 1).length + 4 = s.length := by
        simp only [List.length_drop]
        omega
      have htw := takeWhile_length_le Char.isDigit ((s.drop 3).drop 1)
      split at h
      · split at h
        · injection h with h
          omega
        · injection h with h
          omega
      · injection h with h
        omega
    · have htw := takeWhile_length_le Char.isDigit (s.drop 3)
      have hds : (s.drop 3).length + 3 = s.length := by
        simp only [List.length_drop]
        omega
      split at h
      · simp at h
      · injection h with h
        omega
  · simp at h

theorem wordTokenM_ok :
    ∀ p s n rep, wordTokenM p s = some (n, rep) → rep.length ≤ n ∧ n ≤ s.length := by
  intro p s n rep hx
  rw [wordTokenM] at hx
  split at hx
  · simp at hx
  · split at hx
    · next n' h' =>
      injection hx with hx
      rw [Prod.mk.injEq] at hx
      obtain ⟨rfl, rfl⟩ := hx
      exact ⟨by simp, wordHit_le h'⟩
    · split at hx
      · next n' h' =>
        injection hx with hx
        rw [Prod.mk.injEq] at hx
        obtain ⟨rfl, rfl⟩ := hx
        exact ⟨by simp, wordHit_le h'⟩
      · split at hx
        · next n' h' =>
          injection hx with hx
          rw [Prod.mk.injEq] at hx
          obtain ⟨rfl, rfl⟩ := hx
          exact ⟨by simp, wordHit_le h'⟩
        · split at hx
          · next n' h' =>
            injection hx with hx
            rw [Prod.mk.injEq] at hx
            obtain ⟨rfl, rfl⟩ := hx
            exact ⟨by simp, verHit_le h'⟩
          · simp at hx

theorem processSpineRemark_length (r b nm : Str) :
    (processSpineRemark r b nm).length ≤ r.length := by
  simp only [processSpineRemark]
  split
  · simp
  · set p1 := subAll (litM (("初始立绘").data)) r with hp1def
    set p2 := subAll (litM (("立绘").data)) p1 with hp2def
    set p3 := subAll (litM (("差分").data)) p2 with hp3def
    set p4 := subAll parenDateM p3 with hp4def
    set p5 := subAll bareDateM p4 with hp5def
    set p6 := subAll updatedToLiveM p5 with hp6def
    set p7 := subAll revisedM p6 with hp7def
    set p8 := subAll (litM (("更新").data)) p7 with hp8def
    set p9 := subAllPos wordTokenM none p8 with hp9def
    set p10 := subAll oldNewCharM p9 with hp10def
    set p11 := subAll emptyParenM p10 with hp11def
    set p12 := subAll (litM (("()").data)) p11 with hp12def
    set p13 := subAll (litM (("（）").data)) p12 with hp13def
    set p14 := stripBoth isSpaceCh p13 with hp14def
    set p15 := stripBoth (fun c => c = ',' || c = '，' || c = ' ') p14 with hp15def
    set p16 := subAll doubleCommaM p15 with hp16def
    set p17 := subAll parenToCommaM p16 with hp17def
    set p18 := stripBoth (fun c => c = ',' || c = '，') p17 with hp18def
    set p19 := subAll dressM p18 with hp19def
    set p20 := subAll (litRepM (("西服").data) (("西装").data)) p19 with hp20def
    have h1 : p1.length ≤ r.length := by
      rw [hp1def]
      exact subAll_length _ (litM_ok _) _
    have h2 : p2.length ≤ p1.length := by
      rw [hp2def]
      exact subAll_length _ (litM_ok _) _
    have h3 : p3.length ≤ p2.length := by
      rw [hp3def]
      exact subAll_length _ (litM_ok _) _
    have h4 : p4.length ≤ p3.length := by
      rw [hp4def]
      exact subAll_length _ parenDateM_ok _
    have h5 : p5.length ≤ p4.length := by
      rw [hp5def]
      exact subAll_length _ bareDateM_ok _
    have h6 : p6.length ≤ p5.length := by
      rw [hp6def]
      exact subAll_length _ updatedToLiveM_ok _
    have h7 : p7.length ≤ p6.length := by
      rw [hp7def]
      exact subAll_length _ revisedM_ok _
    have h8 : p8.length ≤ p7.length := by
      rw [hp8def]
      exact subAll_length _ (litM_ok _) _
    have h9 : p9.length ≤ p8.length := by
      rw [hp9def]
      exact subAllPos_length _ wordTokenM_ok none _
    have h10 : p10.length ≤ p9.length := by
      rw [hp10def]
      exact subAll_length _ oldNewCharM_ok _
    have h11 : p11.length ≤ p10.length := by
      rw [hp11def]
      exact subAll_length _ emptyParenM_ok _
    have h12 : p12.length ≤ p11.length := by
      rw [hp12def]
      exact subAll_length _ (litM_ok _) _
    have h13 : p13.length ≤ p12.length := by
      rw [hp13def]
      exact subAll_length _ (litM_ok _) _
    have h14 : p14.length ≤ p13.length := by
      rw [hp14def]
      exact stripBoth_length _ _
    have h15 : p15.length ≤ p14.length := by
      rw [hp15def]
      exact stripBoth_length _ _
    have h16 : p16.length ≤ p15.length := by
      rw [hp16def]
      exact subAll_length _ doubleCommaM_ok _
    have h17 : p17.length ≤ p16.length := by
      rw [hp17def]
      exact subAll_length _ parenToCommaM_ok _
    have h18 : p18.length ≤ p17.length := by
      rw [hp18def]
      exact stripBoth_length _ _
    have h19 : p19.length ≤ p18.length := by
      rw [hp19def]
      exact subAll_length _ dressM_ok _
    have h20 : p20.length ≤ p19.length := by
      rw [hp20def]
      exact subAll_length _ (litRepM_ok _ _ (by decide)) _
    split_ifs
    · simp
    · simp
    · omega

/-- Claim C5 counterexample: the remark cleaner is not idempotent.  Removing
the two occurrences of `立绘` from `立立绘绘` re-joins the remaining characters
into a fresh `立绘`, which only a second pass would remove: the first
application returns `立绘`, the second returns the empty string. -/
theorem claim_C5_counterexample :
    processSpineRemark (processSpineRemark (("立立绘绘").data) [] []) [] [] ≠
      processSpineRemark (("立立绘绘").data) [] [] := by
  decide

/-- Claim C5 (amended): re-applying `clean` to its own output is not the
identity in general, but it can only shrink: the second application returns a
string no longer than the first application's output (every rewrite step of
the pipeline is length-non-increasing). -/
theorem claim_C5_clean_nonexpanding (r b nm : Str) :
    (processSpineRemark (processSpineRemark r b nm) b nm).length ≤
      (processSpineRemark r b nm).length :=
  processSpineRemark_length _ _ _

/-! ## Claim C9: the per-language name builder -/

/-- The suffix rule as the spec words it: base skin label and cleaned remark
joined with a comma (base skin first, absent parts omitted); when the join is
non-empty it is appended to the base name in full-width parentheses; an empty
base name gives the empty string. -/
def suffixNameSpec (base bskin cleaned : Str) : Str :=
  if base = [] then []
  else
    let suffix :=
      joinComma ((if bskin ≠ [] then [bskin] else []) ++ (if cleaned ≠ [] then [cleaned] else []))
    if suffix = [] then base else base ++ '（' :: (suffix ++ ['）'])

/-- Claim C9: EN and KR get the base name only; the suffix-bearing languages
follow `suffixNameSpec` with their own family/given/skin fields and the
cleaned remark; and an empty base name yields the empty string for every
language key. -/
theorem claim_C9_name_builder (d : StudentData) (r : Str) :
    buildFormattedName d .en r = buildName d.family_name_en d.given_name_en ∧
      buildFormattedName d .kr r = buildName d.family_name_kr d.given_name_kr ∧
        (∀ k : LangKey,
          buildName ((langConfig k).1 d) ((langConfig k).2.1 d) = [] →
            buildFormattedName d k r = []) ∧
          buildFormattedName d .full_name r =
            suffixNameSpec (buildName d.family_name d.given_name) (d.skin.getD [])
              (processSpineRemark r (d.skin.getD [])
                (buildName d.family_name d.given_name)) ∧
            buildFormattedName d .cn r =
              suffixNameSpec (buildName d.family_name_cn d.given_name_cn) (d.skin_cn.getD [])
                (processSpineRemark r (d.skin_cn.getD [])
                  (buildName d.family_name_cn d.given_name_cn)) ∧
              buildFormattedName d .jp r =
                suffixNameSpec (buildName d.family_name_jp d.given_name_jp) (d.skin_jp.getD [])
                  (processSpineRemark r (d.skin_jp.getD [])
                    (buildName d.family_name_jp d.given_name_jp)) ∧
                buildFormattedName d .tw r =
                  suffixNameSpec (buildName d.family_name_zh_tw d.given_name_zh_tw)
                    (d.skin_zh_tw.getD [])
                    (processSpineRemark r (d.skin_zh_tw.getD [])
                      (buildName d.family_name_zh_tw d.given_name_zh_tw)) := by
  refine ⟨?_, ?_, ?_, ?_, ?_, ?_, ?_⟩
  · simp [buildFormattedName, langConfig]
  · simp [buildFormattedName, langConfig]
  · intro k hk
    cases k <;> simp_all [buildFormattedName, langConfig]
  all_goals simp [buildFormattedName, langConfig, suffixNameSpec]

/-- Witness for C9: with every name component absent, the CN name is empty
regardless of the remark. -/
theorem claim_C9_witness :
    buildFormattedName ({} : StudentData) LangKey.cn (("立绘").data) = [] :=
  (claim_C9_name_builder {} (("立绘").data)).2.2.1 LangKey.cn (by decide)

/-! ## Claims C7 and C8: character-level rejection and the terminal check -/

/-- Claim C7: a character whose school code is the official-account sentinel
(30) yields zero Forms and exactly one SkipRecord, whatever spine assets it
references. -/
theorem claim_C7_official_account (sid : Int) (fmsg : Option Str) (spines : List SpineItem)
    (d : StudentData) (h : d.school = some 30) :
    (processStudentId sid (some ⟨.present d⟩) fmsg spines).2.1 = [] ∧
      ((processStudentId sid (some ⟨.present d⟩) fmsg spines).2.2).length = 1 ∧
        ((processStudentId sid (some ⟨.present d⟩) fmsg spines).2.2).map
            (fun k => k.reason) = [.officialAccount] := by
  have hv : validateAndGetSkipReason (some ⟨.present d⟩) = some .officialAccount := by
    simp [validateAndGetSkipReason, h]
  simp [processStudentId, parse, hv, getData]

/-- Witness for C7 with one valid spine asset attached. -/
theorem claim_C7_witness :
    (processStudentId 3 (some ⟨.present { school := some 30 }⟩) none [scenarioC3Spine]).2.1
        = [] ∧
      ((processStudentId 3 (some ⟨.present { school := some 30 }⟩) none
          [scenarioC3Spine]).2.2).length = 1 ∧
        ((processStudentId 3 (some ⟨.present { school := some 30 }⟩) none
            [scenarioC3Spine]).2.2).map (fun k => k.reason) = [.officialAccount] :=
  claim_C7_official_account 3 none [scenarioC3Spine] { school := some 30 } (by decide)

theorem validate_none_present {cj : CharJson}
    (hval : validateAndGetSkipReason (some cj) = none) :
    ∃ d, cj.data = .present d := by
  cases hc : cj.data with
  | absent => rw [validateAndGetSkipReason, hc] at hval; simp at hval
  | empty => rw [validateAndGetSkipReason, hc] at hval; simp at hval
  | present d => exact ⟨d, rfl⟩

theorem parse_empty_empty {cj : CharJson} {sid : Int} {spines : List SpineItem}
    (hval : validateAndGetSkipReason (some cj) = none)
    (h1 : (parse (some cj) sid spines).1 = [])
    (h2 : (parse (some cj) sid spines).2.1 = []) :
    parse (some cj) sid spines = ([], [], some .noParseableForm) := by
  obtain ⟨d, hd⟩ := validate_none_present hval
  by_cases hc :
      ((parseLoop d sid spines [] []).1.map (fun kv => kv.2) = [] ∧
        (parseLoop d sid spines [] []).2 = [])
  · simp [parse, hval, getData, hd, hc]
  · exfalso
    simp only [parse, hval, getData, hd, if_neg hc] at h1 h2
    exact hc ⟨h1, h2⟩

theorem parse_reason_none {j : Option CharJson} {sid : Int} {spines : List SpineItem}
    (h : (parse j sid spines).2.2 = none) :
    (parse j sid spines).1 ≠ [] ∨ (parse j sid spines).2.1 ≠ [] := by
  cases j with
  | none => simp [parse, validateAndGetSkipReason] at h
  | some cj =>
    cases hval : validateAndGetSkipReason (some cj) with
    | some r => simp [parse, hval] at h
    | none =>
      obtain ⟨d, hd⟩ := validate_none_present hval
      simp only [parse, hval, getData, hd] at h ⊢
      split at h
      · simp at h
      · next hc =>
        rw [if_neg hc]
        rcases Decidable.not_and_iff_or_not.mp hc with hc1 | hc1
        · left
          exact hc1
        · right
          exact hc1

/-- Claim C8: every processed character id contributes at least one Form or at
least one SkipRecord; and when a validated character's parse produces neither,
the synthesized skip list is exactly one record with the
no-parseable-form reason. -/
theorem claim_C8_no_silent_vanish (sid : Int) (fetched : Option CharJson) (fmsg : Option Str)
    (spines : List SpineItem) :
    ((processStudentId sid fetched fmsg spines).2.1 ≠ [] ∨
      (processStudentId sid fetched fmsg spines).2.2 ≠ []) ∧
      (∀ cj : CharJson, fetched = some cj →
        validateAndGetSkipReason (some cj) = none →
          (parse (some cj) sid spines).1 = [] →
            (parse (some cj) sid spines).2.1 = [] →
              ((processStudentId sid fetched fmsg spines).2.2).map (fun k => k.reason) =
                [.noParseableForm]) := by
  constructor
  · cases fetched with
    | none => right; simp [processStudentId]
    | some cj =>
      cases hr : (parse (some cj) sid spines).2.2 with
      | some r =>
        right
        simp [processStudentId, hr]
      | none =>
        rcases parse_reason_none hr with h | h
        · left
          simpa [processStudentId, hr] using h
        · right
          simpa [processStudentId, hr] using h
  · intro cj hcj hval h1 h2
    subst hcj
    have hp := parse_empty_empty hval h1 h2
    simp [processStudentId, hp]

/-- Witness for C8 at a concrete validated character with no spine data. -/
theorem claim_C8_witness :
    ((processStudentId 5 (some ⟨.present scenarioC3Student⟩) none []).2.1 ≠ [] ∨
      (processStudentId 5 (some ⟨.present scenarioC3Student⟩) none []).2.2 ≠ []) ∧
      ((processStudentId 5 (some ⟨.present scenarioC3Student⟩) none []).2.2).map
          (fun k => k.reason) = [.noParseableForm] :=
  ⟨(claim_C8_no_silent_vanish 5 (some ⟨.present scenarioC3Student⟩) none []).1,
    (claim_C8_no_silent_vanish 5 (some ⟨.present scenarioC3Student⟩) none []).2
      ⟨.present scenarioC3Student⟩ rfl (by decide) (by decide) (by decide)⟩

/-! ## Claims C10 and C1: the duplicate-identifier merge -/

theorem buildForm_spine_id (d : StudentData) (cid : Int) (it : SpineItem) (f : Str) :
    (buildForm d cid it f).spine_id = it.id := rfl

/-- Claim C10: with two eligible spine assets normalizing to the same
identifier, the later candidate replaces the earlier one exactly when its
spine id (missing treated as 0) is strictly greater; on equal ids (including
both missing) the earlier candidate is kept. -/
theorem claim_C10_merge_tiebreak (d : StudentData) (sid : Int) (s1 s2 : SpineItem) (f : Str)
    (hv : validateAndGetSkipReason (some ⟨.present d⟩) = none)
    (h1 : getSpineSkipReason s1 = none) (h2 : getSpineSkipReason s2 = none)
    (hn1 : normalizeFileId (s1.name.getD []) = f)
    (hn2 : normalizeFileId (s2.name.getD []) = f) (hf : f ≠ []) :
    (parse (some ⟨.present d⟩) sid [s1, s2]).1 =
      [buildForm d sid (if s2.id.getD 0 > s1.id.getD 0 then s2 else s1) f] ∧
      (parse (some ⟨.present d⟩) sid [s1, s2]).2.1 = [] := by
  by_cases hcmp : s2.id.getD 0 > s1.id.getD 0
  · simp [parse, hv, getData, parseLoop, h1, h2, hn1, hn2, hf, insertForm,
      buildForm_spine_id, hcmp]
  · simp [parse, hv, getData, parseLoop, h1, h2, hn1, hn2, hf, insertForm,
      buildForm_spine_id, hcmp]

/-- Witness for C10: two assets with missing ids (both treated as 0): the
earlier one is kept. -/
theorem claim_C10_witness :
    (parse (some ⟨.present scenarioC3Student⟩) 5
        [{ name := some (("x_spr").data), type := some (("spr").data) },
         { name := some (("new_x").data), type := some (("spr").data) }]).1 =
      [buildForm scenarioC3Student 5
        { name := some (("x_spr").data), type := some (("spr").data) } (("x").data)] ∧
      (parse (some ⟨.present scenarioC3Student⟩) 5
          [{ name := some (("x_spr").data), type := some (("spr").data) },
           { name := some (("new_x").data), type := some (("spr").data) }]).2.1 = [] := by
  have h := claim_C10_merge_tiebreak scenarioC3Student 5
    { name := some (("x_spr").data), type := some (("spr").data) }
    { name := some (("new_x").data), type := some (("spr").data) } (("x").data)
    (by decide) (by decide) (by decide) (by decide) (by decide) (by decide)
  simpa using h

/-- The merge's selection function: the incoming candidate replaces the
stored one exactly when its id (missing treated as 0) is strictly greater. -/
def pickLater (acc s : SpineItem) : SpineItem :=
  if s.id.getD 0 > acc.id.getD 0 then s else acc

theorem pickLater_cases (acc s : SpineItem) : pickLater acc s = s ∨ pickLater acc s = acc := by
  rw [pickLater]
  split
  · exact Or.inl rfl
  · exact Or.inr rfl

theorem foldl_pickLater_mem (items : List SpineItem) :
    ∀ w : SpineItem, items.foldl pickLater w ∈ w :: items := by
  induction items with
  | nil => intro w; simp
  | cons s rest ih =>
    intro w
    rw [List.foldl_cons]
    rcases pickLater_cases w s with hp | hp <;>
      · rw [hp]
        have := ih (pickLater w s)
        rw [hp] at this
        rcases List.mem_cons.mp this with h | h
        · simp [h]
        · simp [h]

theorem foldl_pickLater_ge (items : List SpineItem) :
    ∀ w : SpineItem, ∀ x ∈ w :: items,
      x.id.getD 0 ≤ (items.foldl pickLater w).id.getD 0 := by
  induction items with
  | nil =>
    intro w x hx
    rcases List.mem_cons.mp hx with h | h
    · subst h; simp
    · simp at h
  | cons s rest ih =>
    intro w x hx
    rw [List.foldl_cons]
    have hmono1 : w.id.getD 0 ≤ (pickLater w s).id.getD 0 := by
      rw [pickLater]
      split <;> omega
    have hmono2 : s.id.getD 0 ≤ (pickLater w s).id.getD 0 := by
      rw [pickLater]
      split <;> omega
    have hhead : (pickLater w s).id.getD 0 ≤
        (rest.foldl pickLater (pickLater w s)).id.getD 0 :=
      ih (pickLater w s) (pickLater w s) (by simp)
    rcases List.mem_cons.mp hx with h | h
    · calc x.id.getD 0 = w.id.getD 0 := by rw [h]
        _ ≤ _ := le_trans hmono1 hhead
    · rcases List.mem_cons.mp h with h2 | h2
      · calc x.id.getD 0 = s.id.getD 0 := by rw [h2]
          _ ≤ _ := le_trans hmono2 hhead
      · exact ih (pickLater w s) x (by simp [h2])

/-- The spine loop on a run of eligible items that all normalize to the same
identifier `f`: starting from a one-entry map, it folds `pickLater` over the
items and keeps a single map entry built from the winner. -/
theorem parseLoop_same_id (d : StudentData) (sid : Int) (f : Str) (hf : f ≠ []) :
    ∀ (items : List SpineItem) (w : SpineItem),
      (∀ s ∈ items,
        getSpineSkipReason s = none ∧ normalizeFileId (s.name.getD []) = f) →
      parseLoop d sid items [(f, buildForm d sid w f)] [] =
        ([(f, buildForm d sid (items.foldl pickLater w) f)], []) := by
  intro items
  induction items with
  | nil => intro w _; simp [parseLoop]
  | cons s rest ih =>
    intro w h
    have hs := h s (by simp)
    have hrest : ∀ x ∈ rest,
        getSpineSkipReason x = none ∧ normalizeFileId (x.name.getD []) = f :=
      fun x hx => h x (by simp [hx])
    rw [List.foldl_cons]
    rw [parseLoop, hs.1]
    simp only [hs.2]
    rw [if_neg (by simpa using hf)]
    have hins : insertForm [(f, buildForm d sid w f)] f (buildForm d sid s f) =
        [(f, buildForm d sid (pickLater w s) f)] := by
      rw [insertForm, if_pos rfl, pickLater]
      simp only [buildForm_spine_id]
      split
      · rfl
      · rfl
    rw [hins]
    exact ih (pickLater w s) hrest

/-- Claim C1: when all (two or more, here `i0 :: rest`) eligible spine assets
of a validated character normalize to the same non-empty identifier and their
asset ids are pairwise distinct, the parse result contains exactly one Form
for that identifier — built from the asset whose id is numerically largest —
and no SkipRecord at all. -/
theorem claim_C1_last_writer_wins (d : StudentData) (sid : Int) (f : Str)
    (i0 : SpineItem) (rest : List SpineItem)
    (hv : validateAndGetSkipReason (some ⟨.present d⟩) = none)
    (hall : ∀ s ∈ i0 :: rest,
      getSpineSkipReason s = none ∧ normalizeFileId (s.name.getD []) = f)
    (hf : f ≠ [])
    (hdist : (i0 :: rest).Pairwise (fun a b => a.id.getD 0 ≠ b.id.getD 0)) :
    ∃ w ∈ i0 :: rest,
      (parse (some ⟨.present d⟩) sid (i0 :: rest)).1 = [buildForm d sid w f] ∧
        (parse (some ⟨.present d⟩) sid (i0 :: rest)).2.1 = [] ∧
          ∀ s ∈ i0 :: rest, s ≠ w → s.id.getD 0 < w.id.getD 0 := by
  have hw_mem : rest.foldl pickLater i0 ∈ i0 :: rest := foldl_pickLater_mem rest i0
  have hw_ge := foldl_pickLater_ge rest i0
  have h0 := hall i0 (by simp)
  have hrest : ∀ s ∈ rest,
      getSpineSkipReason s = none ∧ normalizeFileId (s.name.getD []) = f :=
    fun s hs => hall s (by simp [hs])
  have hloop0 : parseLoop d sid (i0 :: rest) [] [] =
      ([(f, buildForm d sid (rest.foldl pickLater i0) f)], []) := by
    rw [parseLoop, h0.1]
    simp only [h0.2]
    rw [if_neg (by simpa using hf)]
    exact parseLoop_same_id d sid f hf rest i0 hrest
  have hparse : parse (some ⟨.present d⟩) sid (i0 :: rest) =
      ([buildForm d sid (rest.foldl pickLater i0) f], [], none) := by
    simp [parse, hv, getData, hloop0]
  refine ⟨rest.foldl pickLater i0, hw_mem, by rw [hparse], by rw [hparse], ?_⟩
  intro s hs hne
  have hle := hw_ge s hs
  have hsym : Symmetric (fun a b : SpineItem => a.id.getD 0 ≠ b.id.getD 0) :=
    fun _ _ h => h.symm
  have hne' := hdist.forall hsym hs hw_mem hne
  omega

/-- Witness for C1: three spr assets with ids 3, 9, 7 all normalizing to `x`;
the id-9 asset's Form is the only output and no skip records appear. -/
theorem claim_C1_witness :
    ∃ w ∈ [({ id := some 3, name := some (("x_spr").data),
                type := some (("spr").data) } : SpineItem),
            { id := some 9, name := some (("X_spr").data), type := some (("spr").data) },
            { id := some 7, name := some (("J_x").data), type := some (("spr").data) }],
      (parse (some ⟨.present scenarioC3Student⟩) 5
          [{ id := some 3, name := some (("x_spr").data), type := some (("spr").data) },
           { id := some 9, name := some (("X_spr").data), type := some (("spr").data) },
           { id := some 7, name := some (("J_x").data), type := some (("spr").data) }]).1 =
        [buildForm scenarioC3Student 5 w (("x").data)] ∧
        (parse (some ⟨.present scenarioC3Student⟩) 5
            [{ id := some 3, name := some (("x_spr").data), type := some (("spr").data) },
             { id := some 9, name := some (("X_spr").data), type := some (("spr").data) },
             { id := some 7, name := some (("J_x").data), type := some (("spr").data) }]).2.1
          = [] ∧
          ∀ s ∈ [({ id := some 3, name := some (("x_spr").data),
                      type := some (("spr").data) } : SpineItem),
                  { id := some 9, name := some (("X_spr").data),
                    type := some (("spr").data) },
                  { id := some 7, name := some (("J_x").data),
                    type := some (("spr").data) }],
            s ≠ w → s.id.getD 0 < w.id.getD 0 :=
  claim_C1_last_writer_wins scenarioC3Student 5 (("x").data)
    { id := some 3, name := some (("x_spr").data), type := some (("spr").data) }
    [{ id := some 9, name := some (("X_spr").data), type := some (("spr").data) },
     { id := some 7, name := some (("J_x").data), type := some (("spr").data) }]
    (by decide)
    (by
      intro s hs
      fin_cases hs <;> exact ⟨by decide, by decide⟩)
    (by decide)
    (by decide)

/-! ## Claim C4: the fallback-identifier derivation -/

/-- Modelled from the spec: the Form Extractor's fallback pass (spec section
4.4) is not part of `main.py`'s spine-only pipeline; its inputs are modelled
from the spec's words: voice-clip descriptions, avatar-image URLs, the
Japanese given-name field and the developer-facing asset names of the
`character_datas` sub-entries. -/
structure FallbackSources where
  voiceDescs : List Str
  avatarUrls : List Str
  givenNameJp : Option Str
  subDataNames : List Str

/-- Modelled from the spec: first CH/NP-pattern hit over a list of texts,
returned in canonical upper case. -/
def firstPatternHit : List Str → Option Str
  | [] => none
  | x :: rest =>
    match findCHNP x with
    | some m => some (m.map Char.toUpper)
    | none => firstPatternHit rest

/-- Modelled from the spec: strip a known `_default` suffix. -/
def removeDefaultSuffix (s : Str) : Str :=
  if (("_default").data).isSuffixOf s then s.take (s.length - 8) else s

/-- Modelled from the spec: the developer-facing asset name of the first
sub-data entry, with the `_default` suffix stripped, when non-empty. -/
def firstSubDataName (names : List Str) : Option Str :=
  match names.head? with
  | some n =>
    if removeDefaultSuffix n = [] then none else some (removeDefaultSuffix n)
  | none => none

/-- Modelled from the spec: the fallback-identifier derivation, trying in
strict priority order voice descriptions, avatar URLs, the Japanese
given-name when it ends with the pose-file suffix, then the first sub-data
name with `_default` stripped. -/
def deriveFallbackId (src : FallbackSources) : Option Str :=
  match firstPatternHit src.voiceDescs with
  | some m => some m
  | none =>
    match firstPatternHit src.avatarUrls with
    | some m => some m
    | none =>
      match src.givenNameJp with
      | some g =>
        if (("_spr").data).isSuffixOf g then some g
        else firstSubDataName src.subDataNames
      | none => firstSubDataName src.subDataNames

/-- Claim C4: the four fallback sources are consulted in strict priority
order; the first non-empty source determines the result and later sources are
never consulted (the result does not depend on them). -/
theorem claim_C4_fallback_priority (v a : List Str) (g : Option Str) (sub : List Str) :
    (∀ m, firstPatternHit v = some m →
      ∀ (a' : List Str) (g' : Option Str) (sub' : List Str),
        deriveFallbackId ⟨v, a', g', sub'⟩ = some m) ∧
      (firstPatternHit v = none →
        ∀ m, firstPatternHit a = some m →
          ∀ (g' : Option Str) (sub' : List Str),
            deriveFallbackId ⟨v, a, g', sub'⟩ = some m) ∧
        (firstPatternHit v = none → firstPatternHit a = none →
          ∀ gs, g = some gs → (("_spr").data).isSuffixOf gs = true →
            ∀ sub' : List Str, deriveFallbackId ⟨v, a, g, sub'⟩ = some gs) ∧
          (firstPatternHit v = none → firstPatternHit a = none →
            (∀ gs, g = some gs → (("_spr").data).isSuffixOf gs = false) →
              deriveFallbackId ⟨v, a, g, sub⟩ = firstSubDataName sub) := by
  refine ⟨?_, ?_, ?_, ?_⟩
  · intro m hm a' g' sub'
    simp [deriveFallbackId, hm]
  · intro hv m hm g' sub'
    simp [deriveFallbackId, hv, hm]
  · intro hv ha gs hg hsuf sub'
    simp [deriveFallbackId, hv, ha, hg, hsuf]
  · intro hv ha hg
    cases hgc : g with
    | none => simp [deriveFallbackId, hv, ha, hgc]
    | some gs => simp [deriveFallbackId, hv, ha, hgc, hg gs hgc]

/-- Witness for C4: a voice hit wins over every later source. -/
theorem claim_C4_witness :
    deriveFallbackId ⟨[("voice of ch0123 here").data], [("np4567").data],
        some (("mika_spr").data), [("body_default").data]⟩ = some (("CH0123").data) :=
  (claim_C4_fallback_priority [("voice of ch0123 here").data] [] none []).1
    (("CH0123").data) (by decide) [("np4567").data] (some (("mika_spr").data))
    [("body_default").data]
